import Mathlib

/-!
Shallow embedding of the HRM (Hierarchical Reasoning Model) forward pass from
`src/model/hrm.py`, `src/model/controller.py`, `src/model/worker.py` and
`src/model/attention.py`.

Tensors are rational-valued nested lists: the last axis is a `Vec`, a 2-D
tensor is a `Mat`, a 3-D tensor is a `Ten3`.  The transcendental primitives of
the tensor library (exp, log, sin, cos, tanh, gelu, sqrt) are parameters of
the embedding, collected in a `Prims` record, so that every model computation
is an executable function; properties such as positivity of `exp` appear as
explicit hypotheses of the theorems.  Dropout layers are modelled as the
identity (inference semantics / dropout rate 0, which is the regime every
claim about numeric values assumes).  Fallible tensor operations (Conv1d
channel checking, `torch.stack`, broadcasting) return `Except String`.
-/

namespace Upside

/-- Numeric primitive functions of the tensor library.  `exp`, `log`, `sin`,
`cos`, `tanh`, `gelu` and `sqrt` are abstract parameters of the embedding. -/
structure Prims where
  exp : ℚ → ℚ
  log : ℚ → ℚ
  sin : ℚ → ℚ
  cos : ℚ → ℚ
  tanh : ℚ → ℚ
  gelu : ℚ → ℚ
  sqrt : ℚ → ℚ

/-- A feature vector (innermost tensor axis). -/
abbrev Vec := List ℚ

/-- A 2-D tensor, e.g. shape (seq, dim) or (batch, dim). -/
abbrev Mat := List Vec

/-- A 3-D tensor, e.g. shape (batch, seq, dim). -/
abbrev Ten3 := List Mat

/-- Dot product of two vectors. -/
def dot (a b : Vec) : ℚ := (List.zipWith (fun x y => x * y) a b).sum

/-- Elementwise addition. -/
def vadd (a b : Vec) : Vec := List.zipWith (fun x y => x + y) a b

/-- Elementwise (Hadamard) product. -/
def vmul (a b : Vec) : Vec := List.zipWith (fun x y => x * y) a b

/-- Scalar multiple of a vector. -/
def vscale (c : ℚ) (a : Vec) : Vec := a.map (fun x => c * x)

/-- Elementwise `1 - x`, the complementary gate weight. -/
def onesMinus (a : Vec) : Vec := a.map (fun x => 1 - x)

/-- Sum of a list of vectors starting from an `n`-dimensional zero vector. -/
def vsum0 (n : ℕ) (l : List Vec) : Vec := l.foldl vadd (List.replicate n 0)

/-- A `torch.nn.Linear(inD, outD)` parameter set: `weight` has `outD` rows of
length `inD`, `bias` has length `outD`. -/
structure Linear where
  weight : Mat
  bias : Vec

/-- Application of a linear layer to one feature vector: `W x + b`. -/
def Linear.apply (l : Linear) (x : Vec) : Vec :=
  List.zipWith (fun w b => dot w x + b) l.weight l.bias

/-- Shape wellformedness of a linear layer for `inD → outD`. -/
def Linear.wf (l : Linear) (inD outD : ℕ) : Prop :=
  l.weight.length = outD ∧ l.bias.length = outD ∧ ∀ w ∈ l.weight, w.length = inD

/-- A `torch.nn.LayerNorm(dim)` parameter set. -/
structure LayerNorm where
  weight : Vec
  bias : Vec

/-- The default LayerNorm epsilon `1e-5`. -/
def lnEps : ℚ := 1 / 100000

/-- LayerNorm over the last axis: normalize by mean and (biased) variance,
then scale and shift elementwise. -/
def LayerNorm.apply (P : Prims) (ln : LayerNorm) (x : Vec) : Vec :=
  let n : ℚ := (x.length : ℚ)
  let mu := x.sum / n
  let var := (x.map (fun a => (a - mu) ^ 2)).sum / n
  let denom := P.sqrt (var + lnEps)
  List.zipWith (fun a wb => ((a - mu) / denom) * wb.1 + wb.2) x (ln.weight.zip ln.bias)

/-- Shape wellformedness of a LayerNorm for dimension `d`. -/
def LayerNorm.wf (ln : LayerNorm) (d : ℕ) : Prop :=
  ln.weight.length = d ∧ ln.bias.length = d

/-- Logistic sigmoid `1 / (1 + exp (-x))`, as used by `nn.Sigmoid`. -/
def sigmoid (P : Prims) (x : ℚ) : ℚ := 1 / (1 + P.exp (-x))

/-- Elementwise sigmoid. -/
def sigmoidVec (P : Prims) (v : Vec) : Vec := v.map (sigmoid P)

/-- Elementwise ReLU. -/
def reluVec (v : Vec) : Vec := v.map (fun x => max x 0)

/-- Softmax along a vector: `exp` each entry and divide by the total. -/
def softmaxV (P : Prims) (v : Vec) : Vec :=
  let e := v.map P.exp
  e.map (fun a => a / e.sum)

/-- The `-1e9` sentinel written into masked score positions. -/
def negInf : ℚ := -(10 ^ 9)

/-- `scores.masked_fill(mask == 0, -1e9)` on one score row, with the mask row
applied along the key axis (the mask is broadcast over heads and query
positions).  The embedding zips the mask row with the key positions; torch
additionally raises a broadcast error when the mask length differs from the
key count — theorems that supply a mask assume the matching length. -/
def maskFillRow (mask : Option Vec) (row : Vec) : Vec :=
  match mask with
  | none => row
  | some m => List.zipWith (fun s mv => if mv = 0 then negInf else s) row m

/-- The slice of a projected row belonging to head `h` after
`view(batch, seq, num_heads, head_dim)`: consecutive `headDim`-chunks. -/
def headChunk (headDim h : ℕ) (v : Vec) : Vec := (v.drop (h * headDim)).take headDim

/-- Scaled dot-product scores of one head: `Q Kᵀ / sqrt headDim`. -/
def headScores (P : Prims) (headDim h : ℕ) (Q K : Mat) : Mat :=
  Q.map (fun q => K.map (fun k =>
    dot (headChunk headDim h q) (headChunk headDim h k) / P.sqrt (headDim : ℚ)))

/-- Mask filling followed by softmax along the key axis, per query row. -/
def headWeights (P : Prims) (mask : Option Vec) (scores : Mat) : Mat :=
  scores.map (fun row => softmaxV P (maskFillRow mask row))

/-- Weighted sum of value head-slices by one head's attention weights. -/
def headAttend (headDim h : ℕ) (weights : Mat) (V : Mat) : Mat :=
  weights.map (fun w =>
    vsum0 headDim (List.zipWith (fun wi v => vscale wi (headChunk headDim h v)) w V))

/-- Re-concatenation of the per-head attended slices at each query position
(`transpose(1, 2).view(batch, seq, num_heads * head_dim)`). -/
def joinHeads (perHead : List Mat) (seqQ : ℕ) : Mat :=
  (List.range seqQ).map (fun t => (perHead.map (fun m => m.getD t [])).flatten)

/-- Core of every attention forward: project-free multi-head scaled
dot-product attention on already-projected `Q`, `K`, `V`, returning the joined
attended rows and the per-head weight matrices. -/
def attendCore (P : Prims) (numHeads headDim : ℕ) (Q K V : Mat) (mask : Option Vec) :
    Mat × List Mat :=
  let heads := (List.range numHeads).map (fun h =>
    let w := headWeights P mask (headScores P headDim h Q K)
    (w, headAttend headDim h w V))
  (joinHeads (heads.map Prod.snd) Q.length, heads.map Prod.fst)

/-- Parameters of `attention.py`'s `MultiHeadAttention` (same-dimension
variant; `head_dim = dim // num_heads`). -/
structure MultiHeadAttention where
  query_proj : Linear
  key_proj : Linear
  value_proj : Linear
  output_proj : Linear
  dim : ℕ
  num_heads : ℕ

/-- `self.head_dim = dim // num_heads`. -/
def MultiHeadAttention.head_dim (m : MultiHeadAttention) : ℕ := m.dim / m.num_heads

/-- Checked construction of `MultiHeadAttention`: the constructor asserts
`dim % num_heads == 0` before any forward computation can happen. -/
def MultiHeadAttention.construct (dim num_heads : ℕ) (q k v o : Linear) :
    Except String MultiHeadAttention :=
  if dim % num_heads = 0 then .ok ⟨q, k, v, o, dim, num_heads⟩
  else .error "dim must be divisible by num_heads"

/-- One batch element of `MultiHeadAttention.forward`: project, split heads,
scaled dot-product with optional mask, softmax, join heads, output-project.
Returns (output rows, per-head weight matrices).  The source reshapes `K` and
`V` with the QUERY's sequence length (its only call sites are self-attention,
where they coincide); the embedding uses each tensor's own row count. -/
def MultiHeadAttention.forward (P : Prims) (m : MultiHeadAttention)
    (query key value : Mat) (mask : Option Vec) : Mat × List Mat :=
  let Q := query.map m.query_proj.apply
  let K := key.map m.key_proj.apply
  let V := value.map m.value_proj.apply
  let core := attendCore P m.num_heads m.head_dim Q K V mask
  (core.1.map m.output_proj.apply, core.2)

/-- Parameters of `CrossModuleAttention` (cross-dimension variant;
`head_dim = min(query_dim, key_dim, value_dim) // num_heads`). -/
structure CrossModuleAttention where
  query_proj : Linear
  key_proj : Linear
  value_proj : Linear
  output_proj : Linear
  query_dim : ℕ
  key_dim : ℕ
  value_dim : ℕ
  output_dim : ℕ
  num_heads : ℕ

/-- `self.head_dim = min(query_dim, key_dim, value_dim) // num_heads`. -/
def CrossModuleAttention.head_dim (c : CrossModuleAttention) : ℕ :=
  min c.query_dim (min c.key_dim c.value_dim) / c.num_heads

/-- Checked construction of `CrossModuleAttention`: the constructor asserts
`head_dim > 0` before any forward computation can happen. -/
def CrossModuleAttention.construct (query_dim key_dim value_dim output_dim num_heads : ℕ)
    (q k v o : Linear) : Except String CrossModuleAttention :=
  if 0 < min query_dim (min key_dim value_dim) / num_heads then
    .ok ⟨q, k, v, o, query_dim, key_dim, value_dim, output_dim, num_heads⟩
  else .error "Head dimension must be positive"

/-- One batch element of `CrossModuleAttention.forward`. -/
def CrossModuleAttention.forward (P : Prims) (c : CrossModuleAttention)
    (query key value : Mat) (mask : Option Vec) : Mat × List Mat :=
  let Q := query.map c.query_proj.apply
  let K := key.map c.key_proj.apply
  let V := value.map c.value_proj.apply
  let core := attendCore P c.num_heads c.head_dim Q K V mask
  (core.1.map c.output_proj.apply, core.2)

/-- Heterogeneous 3-ary zip (tensors over the batch axis). -/
def zipWith3 (f : α → β → γ → δ) : List α → List β → List γ → List δ
  | a :: as, b :: bs, c :: cs => f a b c :: zipWith3 f as bs cs
  | _, _, _ => []

/-- Heterogeneous 4-ary zip. -/
def zipWith4 (f : α → β → γ → δ → ε) : List α → List β → List γ → List δ → List ε
  | a :: as, b :: bs, c :: cs, d :: ds => f a b c d :: zipWith4 f as bs cs ds
  | _, _, _, _ => []

/-- Distribute an optional `(batch, seq)` mask over the batch axis: element
`b` of the result is the mask row for batch element `b`. -/
def batchMasks (mask : Option Mat) (batch : ℕ) : List (Option Vec) :=
  (List.range batch).map (fun b => mask.map (fun m => m.getD b []))

/-- Batched `MultiHeadAttention.forward` on (batch, seq, dim) tensors,
returning the (batch, heads, seqQ, seqK)-shaped weight tensor alongside the
output. -/
def MultiHeadAttention.forwardB (P : Prims) (m : MultiHeadAttention)
    (query key value : Ten3) (mask : Option Mat) : Ten3 × List (List Mat) :=
  let outs := zipWith4 (fun q k v mk => m.forward P q k v mk)
    query key value (batchMasks mask query.length)
  (outs.map Prod.fst, outs.map Prod.snd)

/-- Batched `CrossModuleAttention.forward`. -/
def CrossModuleAttention.forwardB (P : Prims) (c : CrossModuleAttention)
    (query key value : Ten3) (mask : Option Mat) : Ten3 × List (List Mat) :=
  let outs := zipWith4 (fun q k v mk => c.forward P q k v mk)
    query key value (batchMasks mask query.length)
  (outs.map Prod.fst, outs.map Prod.snd)

/-- Parameters of `controller.py`'s `MultiHeadAttention`, which adds an
optional output gate over the query (`use_gated`). -/
structure GatedMultiHeadAttention where
  query_proj : Linear
  key_proj : Linear
  value_proj : Linear
  output_proj : Linear
  gate : Linear
  dim : ℕ
  num_heads : ℕ
  use_gated : Bool

/-- `self.head_dim = dim // num_heads`. -/
def GatedMultiHeadAttention.head_dim (m : GatedMultiHeadAttention) : ℕ :=
  m.dim / m.num_heads

/-- Checked construction mirroring the constructor assert of
`controller.py`'s `MultiHeadAttention`. -/
def GatedMultiHeadAttention.construct (dim num_heads : ℕ) (use_gated : Bool)
    (q k v o g : Linear) : Except String GatedMultiHeadAttention :=
  if dim % num_heads = 0 then .ok ⟨q, k, v, o, g, dim, num_heads, use_gated⟩
  else .error "dim must be divisible by num_heads"

/-- The per-position gate `sigmoid(self.gate(query))` of the gated attention. -/
def GatedMultiHeadAttention.gateVec (P : Prims) (m : GatedMultiHeadAttention)
    (q : Vec) : Vec :=
  sigmoidVec P (m.gate.apply q)

/-- One batch element of the controller's gated multi-head attention forward:
when gating is enabled, the output is `gate * attnOut + (1 - gate) * query`
per position. -/
def GatedMultiHeadAttention.forward (P : Prims) (m : GatedMultiHeadAttention)
    (query key value : Mat) (mask : Option Vec) : Mat × List Mat :=
  let Q := query.map m.query_proj.apply
  let K := key.map m.key_proj.apply
  let V := value.map m.value_proj.apply
  let core := attendCore P m.num_heads m.head_dim Q K V mask
  let out := core.1.map m.output_proj.apply
  let gated := if m.use_gated then
      List.zipWith (fun o q =>
        vadd (vmul (m.gateVec P q) o) (vmul (onesMinus (m.gateVec P q)) q)) out query
    else out
  (gated, core.2)

/-- `controller.py`'s `FeedForward`: gated linear units
`sigmoid(gate_proj x) * gelu(up_proj x)`, down-projected. -/
structure FeedForward where
  gate_proj : Linear
  up_proj : Linear
  down_proj : Linear

/-- The GLU gate `sigmoid(gate_proj x)`. -/
def FeedForward.gateVec (P : Prims) (ff : FeedForward) (x : Vec) : Vec :=
  sigmoidVec P (ff.gate_proj.apply x)

/-- The GLU value branch `gelu(up_proj x)`. -/
def FeedForward.upVec (P : Prims) (ff : FeedForward) (x : Vec) : Vec :=
  (ff.up_proj.apply x).map P.gelu

/-- The gated combination `gate * up` of the feed-forward block (the code has
no complementary `(1 - gate)` term here). -/
def FeedForward.combined (P : Prims) (ff : FeedForward) (x : Vec) : Vec :=
  vmul (ff.gateVec P x) (ff.upVec P x)

/-- `FeedForward.forward`. -/
def FeedForward.forward (P : Prims) (ff : FeedForward) (x : Vec) : Vec :=
  ff.down_proj.apply (ff.combined P x)

/-- `controller.py`'s `PlanningNetwork`: pre-norm, then
Linear → GELU → Linear → GELU → Linear. -/
structure PlanningNetwork where
  l1 : Linear
  l2 : Linear
  l3 : Linear
  norm : LayerNorm

/-- `PlanningNetwork.forward`. -/
def PlanningNetwork.forward (P : Prims) (pn : PlanningNetwork) (x : Vec) : Vec :=
  pn.l3.apply ((pn.l2.apply ((pn.l1.apply (pn.norm.apply P x)).map P.gelu)).map P.gelu)

/-- `controller.py`'s `GoalEncoder`: Linear → GELU → Linear. -/
structure GoalEncoder where
  l1 : Linear
  l2 : Linear

/-- `GoalEncoder.forward`. -/
def GoalEncoder.forward (P : Prims) (g : GoalEncoder) (h : Vec) : Vec :=
  g.l2.apply ((g.l1.apply h).map P.gelu)

/-- One controller layer: its self-attention, feed-forward and the two
pre-norm LayerNorms (`layer_norms[2 * i]` and `layer_norms[2 * i + 1]`). -/
structure ControllerLayer where
  attn : GatedMultiHeadAttention
  ff : FeedForward
  norm1 : LayerNorm
  norm2 : LayerNorm

/-- Parameters of the `Controller` module.  The source keeps the attention
stack, feed-forward stack and norm list as parallel `ModuleList`s indexed by
the layer counter; they are zipped here into one record per layer. -/
structure Controller where
  layers : List ControllerLayer
  planning : PlanningNetwork
  goal : GoalEncoder

/-- The per-layer sequence transform of the controller loop body: pre-norm
self-attention with residual, then pre-norm feed-forward with residual. -/
def controllerLayerStep (P : Prims) (mask : Option Vec) (L : ControllerLayer)
    (x : Mat) : Mat :=
  let xn := x.map (L.norm1.apply P)
  let a := (L.attn.forward P xn xn xn mask).1
  let x1 := List.zipWith vadd x a
  let xn2 := x1.map (L.norm2.apply P)
  let f := xn2.map (L.ff.forward P)
  List.zipWith vadd x1 f

/-- `x.mean(dim=1)`: mean of the sequence rows. -/
def matMean (m : Mat) : Vec :=
  match m with
  | [] => []
  | r :: rs => (rs.foldl vadd r).map (fun a => a / ((rs.length + 1 : ℕ) : ℚ))

/-- The controller layer loop, carrying the sequence activation and the
pooled hidden state (`hidden += x.mean(dim=1)` after every layer). -/
def controllerLoop (P : Prims) (mask : Option Vec) :
    List ControllerLayer → Mat → Vec → Mat × Vec
  | [], x, h => (x, h)
  | L :: rest, x, h =>
    let x1 := controllerLayerStep P mask L x
    controllerLoop P mask rest x1 (vadd h (matMean x1))

/-- The successive per-layer sequence activations of the controller loop. -/
def controllerTrajectory (P : Prims) (mask : Option Vec) :
    List ControllerLayer → Mat → List Mat
  | [], _ => []
  | L :: rest, x =>
    let x1 := controllerLayerStep P mask L x
    x1 :: controllerTrajectory P mask rest x1

/-- `Controller.forward`: goal-encode the prior hidden state and add it to
every position, run the layer stack while pooling into the hidden state, then
add the planning network's output.  (Of the returned dict the orchestrator
only consumes `hidden_state`, which is what this function returns.) -/
def Controller.forward (P : Prims) (c : Controller) (x : Mat)
    (hidden_state : Vec) (mask : Option Vec) : Vec :=
  let goal_encoding := c.goal.forward P hidden_state
  let x0 := x.map (fun r => vadd r goal_encoding)
  let xh := controllerLoop P mask c.layers x0 hidden_state
  vadd xh.2 (c.planning.forward P xh.2)

/-- Parameters of a `torch.nn.GRUCell(dim, dim)`, split into the reset (`r`),
update (`z`) and candidate (`n`) blocks of `weight_ih`/`weight_hh` and their
biases. -/
structure GRUCell where
  ir : Linear
  iz : Linear
  inp : Linear
  hr : Linear
  hz : Linear
  hn : Linear

/-- GRU cell step:
`r = σ(W_ir x + b_ir + W_hr h + b_hr)`, `z` likewise,
`n = tanh(W_in x + b_in + r * (W_hn h + b_hn))`,
`h' = (1 - z) * n + z * h`. -/
def GRUCell.forward (P : Prims) (g : GRUCell) (x h : Vec) : Vec :=
  let r := sigmoidVec P (vadd (g.ir.apply x) (g.hr.apply h))
  let z := sigmoidVec P (vadd (g.iz.apply x) (g.hz.apply h))
  let n := (vadd (g.inp.apply x) (vmul r (g.hn.apply h))).map P.tanh
  vadd (vmul (onesMinus z) n) (vmul z h)

/-- One output row of a kernel-3, padding-1 `Conv1d`: position `t` of output
channel `c` is `bias c + sum over input channels of w[c][ci] ⬝ padded[t..t+2]`. -/
def conv1dRow (w : Mat) (bc : ℚ) (input : Mat) (len : ℕ) : Vec :=
  (List.range len).map (fun t =>
    bc + (List.zipWith (fun wc irow => dot wc ((((0 :: irow) ++ [0]).drop t).take 3)) w input).sum)

/-- `nn.Conv1d(in_channels, out_channels, kernel_size=3, padding=1)` applied
to a (channels, length) matrix.  As in torch, an input whose channel count
differs from `in_channels` is a runtime error. -/
def conv1d (in_channels : ℕ) (weight : List Mat) (bias : Vec) (input : Mat) :
    Except String Mat :=
  if input.length = in_channels then
    .ok (List.zipWith (fun wc bc => conv1dRow wc bc input (input.headD []).length)
      weight bias)
  else .error "conv1d expected in_channels input channels"

/-- Parameters of `worker.py`'s `WorkerLayer`. -/
structure WorkerLayer where
  dim : ℕ
  linear_transform : Linear
  conv_weight : List Mat
  conv_bias : Vec
  gru_cell : GRUCell
  gate : Linear
  use_conv : Bool
  use_gru : Bool

/-- The convolution branch of a worker layer.  The source computes
`x.unsqueeze(-1).transpose(1, 2)`, which turns the (batch, dim) activation
into a (batch, 1, dim) tensor: ONE input channel of length `dim`, although the
`Conv1d` was constructed with `in_channels = dim`.  For a batch element this
is the one-row matrix `[x]`; `conv1d` then rejects it unless `dim = 1`.
`.squeeze(-1)` afterwards keeps the per-channel value. -/
def WorkerLayer.convBranch (wl : WorkerLayer) (x : Vec) : Except String Vec :=
  if wl.use_conv then
    (conv1d wl.dim wl.conv_weight wl.conv_bias [x]).map
      (fun m => m.map (fun ch => ch.headD 0))
  else .ok x

/-- The recurrent branch of a worker layer: a GRU cell step, or the raw input
when disabled. -/
def WorkerLayer.gruBranch (P : Prims) (wl : WorkerLayer) (x h : Vec) : Vec :=
  if wl.use_gru then wl.gru_cell.forward P x h else x

/-- The fusion gate `sigmoid(self.gate(cat [conv_output, gru_output]))`. -/
def WorkerLayer.gateVec (P : Prims) (wl : WorkerLayer) (conv gru : Vec) : Vec :=
  sigmoidVec P (wl.gate.apply (conv ++ gru))

/-- `WorkerLayer.forward`: fused output `gate * conv + (1 - gate) * gru` plus
the linear branch as residual, and additive hidden-state update
`h' = h + output`. -/
def WorkerLayer.forward (P : Prims) (wl : WorkerLayer) (x hidden_state : Vec) :
    Except String (Vec × Vec) := do
  let linear_output := wl.linear_transform.apply x
  let conv_output ← wl.convBranch x
  let gru_output := wl.gruBranch P x hidden_state
  let g := wl.gateVec P conv_output gru_output
  let output := vadd (vadd (vmul g conv_output) (vmul (onesMinus g) gru_output)) linear_output
  .ok (output, vadd hidden_state output)

/-- `worker.py`'s `PatternRecognitionNetwork`: pre-norm, then
Linear → ReLU → Linear → ReLU → Linear. -/
structure PatternRecognitionNetwork where
  l1 : Linear
  l2 : Linear
  l3 : Linear
  norm : LayerNorm

/-- `PatternRecognitionNetwork.forward`. -/
def PatternRecognitionNetwork.forward (P : Prims) (pnet : PatternRecognitionNetwork)
    (x : Vec) : Vec :=
  pnet.l3.apply (reluVec (pnet.l2.apply (reluVec (pnet.l1.apply (pnet.norm.apply P x)))))

/-- `worker.py`'s `FastResponseNetwork`: pre-norm, then Linear → ReLU → Linear. -/
structure FastResponseNetwork where
  l1 : Linear
  l2 : Linear
  norm : LayerNorm

/-- `FastResponseNetwork.forward`. -/
def FastResponseNetwork.forward (P : Prims) (rnet : FastResponseNetwork) (x : Vec) : Vec :=
  rnet.l2.apply (reluVec (rnet.l1.apply (rnet.norm.apply P x)))

/-- Parameters of the `Worker` module; the per-layer `WorkerLayer`s are
paired with their `layer_norms` entries. -/
structure Worker where
  input_projection : Linear
  layers : List (WorkerLayer × LayerNorm)
  pattern_network : PatternRecognitionNetwork
  response_network : FastResponseNetwork

/-- The worker layer loop: normalize the activation, run the worker layer on
it with the current hidden state, add the layer output residually. -/
def workerLoop (P : Prims) :
    List (WorkerLayer × LayerNorm) → Vec → Vec → Except String (Vec × Vec)
  | [], x, h => .ok (x, h)
  | Ln :: rest, x, h => do
    let xn := Ln.2.apply P x
    let ohp ← Ln.1.forward P xn h
    workerLoop P rest (vadd x ohp.1) ohp.2

/-- `Worker.forward` for one batch element: input projection, layer loop,
then `hidden + pattern_output + response_output`.  (Only `hidden_state` of
the returned dict is consumed by the orchestrator.) -/
def Worker.forward (P : Prims) (w : Worker) (x hidden_state : Vec) :
    Except String Vec := do
  let x0 := w.input_projection.apply x
  let xh ← workerLoop P w.layers x0 hidden_state
  let pattern_output := w.pattern_network.forward P xh.2
  let response_output := w.response_network.forward P xh.2
  .ok (vadd (vadd xh.2 pattern_output) response_output)

/-- Parameters of `attention.py`'s `HierarchicalAttention` bridge. -/
structure HierarchicalAttention where
  controller_to_worker_attn : CrossModuleAttention
  worker_to_controller_attn : CrossModuleAttention
  cross_attention : CrossModuleAttention
  controller_gate : Linear
  worker_gate : Linear
  controller_norm : LayerNorm
  worker_norm : LayerNorm
  use_cross_attention : Bool

/-- The worker→controller attended vector (query = controller state, key =
value = worker state, each a length-1 sequence). -/
def HierarchicalAttention.w2cAttended (P : Prims) (ha : HierarchicalAttention)
    (cs ws : Vec) (mask : Option Vec) : Vec :=
  ((ha.worker_to_controller_attn.forward P [cs] [ws] [ws] mask).1.headD [])

/-- The controller→worker attended vector (query = worker state, key = value
= controller state). -/
def HierarchicalAttention.c2wAttended (P : Prims) (ha : HierarchicalAttention)
    (cs ws : Vec) (mask : Option Vec) : Vec :=
  ((ha.controller_to_worker_attn.forward P [ws] [cs] [cs] mask).1.headD [])

/-- The optional cross-attention vector added into the controller path. -/
def HierarchicalAttention.crossAttended (P : Prims) (ha : HierarchicalAttention)
    (cs ws : Vec) (mask : Option Vec) : Vec :=
  ((ha.cross_attention.forward P [cs] [ws] [ws] mask).1.headD [])

/-- The controller-side gate `sigmoid(controller_gate(cat [state, attended]))`. -/
def HierarchicalAttention.controllerGateVec (P : Prims) (ha : HierarchicalAttention)
    (cs ws : Vec) (mask : Option Vec) : Vec :=
  sigmoidVec P (ha.controller_gate.apply (cs ++ ha.w2cAttended P cs ws mask))

/-- The worker-side gate `sigmoid(worker_gate(cat [state, attended]))`. -/
def HierarchicalAttention.workerGateVec (P : Prims) (ha : HierarchicalAttention)
    (cs ws : Vec) (mask : Option Vec) : Vec :=
  sigmoidVec P (ha.worker_gate.apply (ws ++ ha.c2wAttended P cs ws mask))

/-- The gated convex combination on the controller path,
`gate * attended + (1 - gate) * state`. -/
def HierarchicalAttention.controllerCombined (P : Prims) (ha : HierarchicalAttention)
    (cs ws : Vec) (mask : Option Vec) : Vec :=
  vadd (vmul (ha.controllerGateVec P cs ws mask) (ha.w2cAttended P cs ws mask))
    (vmul (onesMinus (ha.controllerGateVec P cs ws mask)) cs)

/-- The gated convex combination on the worker path. -/
def HierarchicalAttention.workerCombined (P : Prims) (ha : HierarchicalAttention)
    (cs ws : Vec) (mask : Option Vec) : Vec :=
  vadd (vmul (ha.workerGateVec P cs ws mask) (ha.c2wAttended P cs ws mask))
    (vmul (onesMinus (ha.workerGateVec P cs ws mask)) ws)

/-- One batch element of `HierarchicalAttention.forward`, returning the new
(controller, worker) state pair.  The attention-weight dict of the source is
consumed only by the `return_attention` path of the orchestrator, which is
modelled at the `HRM.forward` level. -/
def HierarchicalAttention.forward (P : Prims) (ha : HierarchicalAttention)
    (controller_state worker_state : Vec) (mask : Option Vec) : Vec × Vec :=
  let c0 := ha.controllerCombined P controller_state worker_state mask
  let c1 := if ha.use_cross_attention then
      vadd c0 (ha.crossAttended P controller_state worker_state mask)
    else c0
  let w0 := ha.workerCombined P controller_state worker_state mask
  (ha.controller_norm.apply P c1, ha.worker_norm.apply P w0)

/-- The construction-time configuration of the `HRM` orchestrator. -/
structure HRMConfig where
  input_dim : ℕ
  controller_dim : ℕ
  worker_dim : ℕ
  num_layers : ℕ
  num_cycles : ℕ
  use_attention : Bool
  use_positional_encoding : Bool

/-- Construction of `HRM(cfg)` succeeds exactly when every constructor assert
of the submodules passes: each controller layer asserts
`controller_dim % 8 == 0` (`num_heads = 8` is what `HRM` instantiates), and
each of the three bridge `CrossModuleAttention`s asserts a positive head
dimension `min(query_dim, key_dim, value_dim) // 8 > 0`. -/
def HRMConfig.valid (cfg : HRMConfig) : Prop :=
  (0 < cfg.num_layers → cfg.controller_dim % 8 = 0) ∧
  (cfg.use_attention = true →
    0 < min cfg.worker_dim (min cfg.controller_dim cfg.controller_dim) / 8 ∧
    0 < min cfg.controller_dim (min cfg.worker_dim cfg.worker_dim) / 8)

/-- Parameter record of the `HRM` orchestrator. -/
structure HRM where
  input_projection : Linear
  controller : Controller
  worker : Worker
  attention : HierarchicalAttention
  controller_to_worker : Linear
  worker_to_controller : Linear
  output_projection : Linear
  layer_norm : LayerNorm

/-- `max_len = 1000` with which `HRM` instantiates `PositionalEncoding`. -/
def peMaxLen : ℕ := 1000

/-- `div_term = exp(arange(0, d_model, 2) * (-log 10000 / d_model))`. -/
def peDivTerm (P : Prims) (d_model : ℕ) : Vec :=
  (List.range ((d_model + 1) / 2)).map (fun i =>
    P.exp (((2 * i : ℕ) : ℚ) * (-(P.log 10000) / (d_model : ℚ))))

/-- The precomputed sinusoidal table: `pe[pos, 2i] = sin(pos * div_term i)`,
`pe[pos, 2i+1] = cos(pos * div_term i)`, for positions below `max_len`. -/
def peTable (P : Prims) (d_model max_len : ℕ) : Mat :=
  (List.range max_len).map (fun pos =>
    (List.range d_model).map (fun j =>
      if j % 2 = 0 then P.sin ((pos : ℚ) * (peDivTerm P d_model).getD (j / 2) 0)
      else P.cos ((pos : ℚ) * (peDivTerm P d_model).getD (j / 2) 0)))

/-- `PositionalEncoding.forward`: the buffer `pe` was reshaped to
`(max_len, 1, d_model)`, and the source computes `x + self.pe[:x.size(0), :]`
on a batch-first `x` of shape (batch, seq, d_model).  The slice is therefore
indexed by the BATCH size, and broadcasting adds `pe[b]` to every sequence
position of batch element `b` (a broadcast error when the batch exceeds
`max_len` and is not 1). -/
def PositionalEncoding.forward (pe : Mat) (x : Ten3) :
    Except String Ten3 :=
  let sl := pe.take x.length
  if sl.length = x.length then
    .ok (List.zipWith (fun xb pb => xb.map (fun row => vadd row pb)) x sl)
  else if sl.length = 1 then
    .ok (x.map (fun xb => xb.map (fun row => vadd row (sl.headD []))))
  else .error "positional encoding broadcast mismatch"

/-- What the spec describes for positional encoding (the second definition of
a refinement comparison, following the spec's words rather than the source):
"every sequence position t of the projected input receives the standard
sinusoidal encoding of position t added to it", i.e. row `t` of every batch
element gets `pe[t]`. -/
def PositionalEncoding.specIntended (pe : Mat) (x : Ten3) : Ten3 :=
  x.map (fun xb => List.zipWith vadd xb pe)

/-- The result record of one cycle of the reasoning loop: the recorded
(pre-fusion) controller and worker states and the states carried to the next
cycle. -/
structure CycleOut where
  recC : Mat
  recW : Mat
  newC : Mat
  newW : Mat

/-- Monadic zip used for the batched worker invocation (the worker can fail
in its convolution branch). -/
def zipWithE (f : α → β → Except String γ) : List α → List β → Except String (List γ)
  | a :: as, b :: bs => do
    let c ← f a b
    let cs ← zipWithE f as bs
    .ok (c :: cs)
  | _, _ => .ok []

/-- One cycle of the reasoning loop: controller step, projection to worker
space, worker step, optional attention-bridge fusion, worker→controller
feedback, layer normalization.  Returns both the recorded (pre-fusion) states
and the post-cycle states. -/
def hrmCycle (P : Prims) (hrm : HRM) (useAttention : Bool) (x : Ten3)
    (masks : List (Option Vec)) (cs ws : Mat) : Except String CycleOut := do
  let c1 := zipWith3 (fun xb h mk => hrm.controller.forward P xb h mk) x cs masks
  let wIn := c1.map hrm.controller_to_worker.apply
  let w1 ← zipWithE (fun xi h => hrm.worker.forward P xi h) wIn ws
  let fused := if useAttention then
      zipWith3 (fun c w mk => hrm.attention.forward P c w mk) c1 w1 masks
    else List.zipWith (fun c w => (c, w)) c1 w1
  let fb := (fused.map Prod.snd).map hrm.worker_to_controller.apply
  let c3 := (List.zipWith vadd (fused.map Prod.fst) fb).map (hrm.layer_norm.apply P)
  .ok ⟨c1, w1, c3, fused.map Prod.snd⟩

/-- The fixed-length reasoning loop: runs exactly its cycle-count argument
many iterations (no early exit), appending the recorded states to the history
accumulators. -/
def hrmLoop (P : Prims) (hrm : HRM) (useAttention : Bool) (x : Ten3)
    (masks : List (Option Vec)) :
    ℕ → Mat → Mat → List Mat → List Mat → Except String (Mat × Mat × List Mat × List Mat)
  | 0, cs, ws, ch, wh => .ok (cs, ws, ch, wh)
  | n + 1, cs, ws, ch, wh => do
    let q ← hrmCycle P hrm useAttention x masks cs ws
    hrmLoop P hrm useAttention x masks n q.newC q.newW (ch ++ [q.recC]) (wh ++ [q.recW])

/-- Iterated cycle transition on the (controller, worker) state pair,
ignoring the history. -/
def hrmStates (P : Prims) (hrm : HRM) (useAttention : Bool) (x : Ten3)
    (masks : List (Option Vec)) : ℕ → Mat × Mat → Except String (Mat × Mat)
  | 0, s => .ok s
  | n + 1, s => do
    let q ← hrmCycle P hrm useAttention x masks s.1 s.2
    hrmStates P hrm useAttention x masks n (q.newC, q.newW)

/-- `torch.stack(states, dim=1)`: turns a `num_cycles`-list of (batch, dim)
states into a (batch, num_cycles, dim) tensor.  `torch.stack` of an empty
list raises. -/
def stackDim1 (states : List Mat) : Except String Ten3 :=
  match states with
  | [] => .error "stack expects a non-empty TensorList"
  | s :: _ => .ok ((List.range s.length).map (fun b => states.map (fun m => m.getD b [])))

/-- The result dictionary of `HRM.forward`. -/
structure HRMOutput where
  output : Mat
  controller_states : Ten3
  worker_states : Ten3
  final_controller_state : Mat
  final_worker_state : Mat

/-- Input projection plus optional positional encoding, the entry phase of
`HRM.forward`. -/
def hrmPrepare (P : Prims) (cfg : HRMConfig) (hrm : HRM) (x : Ten3) :
    Except String Ten3 :=
  let x1 := x.map (fun xb => xb.map hrm.input_projection.apply)
  if cfg.use_positional_encoding then
    PositionalEncoding.forward (peTable P cfg.controller_dim peMaxLen) x1
  else .ok x1

/-- `HRM.forward`.  When `return_attention` is set and the bridge is enabled,
the source appends the attention-weight DICTIONARY of each cycle to a list
and calls `torch.stack` on that list of dicts, which raises a `TypeError`;
this is modelled by the error branch at the end (reached whenever the rest of
the pass has not already failed). -/
def HRM.forward (P : Prims) (cfg : HRMConfig) (hrm : HRM) (x : Ten3)
    (mask : Option Mat) (return_attention : Bool) : Except String HRMOutput := do
  let x2 ← hrmPrepare P cfg hrm x
  let batch := x.length
  let masks := batchMasks mask batch
  let cs0 := List.replicate batch (List.replicate cfg.controller_dim (0 : ℚ))
  let ws0 := List.replicate batch (List.replicate cfg.worker_dim (0 : ℚ))
  let res ← hrmLoop P hrm cfg.use_attention x2 masks cfg.num_cycles cs0 ws0 [] []
  let output := res.1.map hrm.output_projection.apply
  let cst ← stackDim1 res.2.2.1
  let wst ← stackDim1 res.2.2.2
  if return_attention && cfg.use_attention then
    .error "torch stack applied to the list of attention-weight dicts raises TypeError"
  else
    .ok ⟨output, cst, wst, res.1, res.2.1⟩

/-! Shape wellformedness predicates for the parameter records. -/

/-- Shape wellformedness of the gated attention for dimension `d`. -/
def GatedMultiHeadAttention.wf (m : GatedMultiHeadAttention) (d : ℕ) : Prop :=
  m.query_proj.wf d d ∧ m.key_proj.wf d d ∧ m.value_proj.wf d d ∧
  m.output_proj.wf d d ∧ m.gate.wf d d

/-- Shape wellformedness of the feed-forward block for dimension `d`. -/
def FeedForward.wf (ff : FeedForward) (d : ℕ) : Prop :=
  ff.gate_proj.wf d (2 * d) ∧ ff.up_proj.wf d (2 * d) ∧ ff.down_proj.wf (2 * d) d

/-- Shape wellformedness of the planning network. -/
def PlanningNetwork.wf (pn : PlanningNetwork) (d : ℕ) : Prop :=
  pn.l1.wf d (2 * d) ∧ pn.l2.wf (2 * d) d ∧ pn.l3.wf d d ∧ pn.norm.wf d

/-- Shape wellformedness of the goal encoder. -/
def GoalEncoder.wf (g : GoalEncoder) (d : ℕ) : Prop :=
  g.l1.wf d d ∧ g.l2.wf d d

/-- Shape wellformedness of one controller layer. -/
def ControllerLayer.wf (L : ControllerLayer) (d : ℕ) : Prop :=
  L.attn.wf d ∧ L.ff.wf d ∧ L.norm1.wf d ∧ L.norm2.wf d

/-- Shape wellformedness of the controller. -/
def Controller.wf (c : Controller) (d : ℕ) : Prop :=
  (∀ L ∈ c.layers, L.wf d) ∧ c.planning.wf d ∧ c.goal.wf d

/-- Shape wellformedness of a GRU cell. -/
def GRUCell.wf (g : GRUCell) (d : ℕ) : Prop :=
  g.ir.wf d d ∧ g.iz.wf d d ∧ g.inp.wf d d ∧ g.hr.wf d d ∧ g.hz.wf d d ∧ g.hn.wf d d

/-- Shape wellformedness of a worker layer. -/
def WorkerLayer.wf (wl : WorkerLayer) (d : ℕ) : Prop :=
  wl.dim = d ∧ wl.linear_transform.wf d d ∧ wl.conv_weight.length = d ∧
  wl.conv_bias.length = d ∧ wl.gru_cell.wf d ∧ wl.gate.wf (2 * d) d

/-- Shape wellformedness of the pattern-recognition network. -/
def PatternRecognitionNetwork.wf (pnet : PatternRecognitionNetwork) (d : ℕ) : Prop :=
  pnet.l1.wf d (2 * d) ∧ pnet.l2.wf (2 * d) d ∧ pnet.l3.wf d d ∧ pnet.norm.wf d

/-- Shape wellformedness of the fast-response network. -/
def FastResponseNetwork.wf (rnet : FastResponseNetwork) (d : ℕ) : Prop :=
  rnet.l1.wf d d ∧ rnet.l2.wf d d ∧ rnet.norm.wf d

/-- Shape wellformedness of the worker. -/
def Worker.wf (w : Worker) (d : ℕ) : Prop :=
  w.input_projection.wf d d ∧ (∀ l ∈ w.layers, l.1.wf d ∧ l.2.wf d) ∧
  w.pattern_network.wf d ∧ w.response_network.wf d

/-- Shape wellformedness of a cross-module attention with the given
query/key/value/output dimensions. -/
def CrossModuleAttention.wf (c : CrossModuleAttention) (qd kd vd od : ℕ) : Prop :=
  c.query_dim = qd ∧ c.key_dim = kd ∧ c.value_dim = vd ∧ c.output_dim = od ∧
  c.query_proj.wf qd (c.num_heads * c.head_dim) ∧
  c.key_proj.wf kd (c.num_heads * c.head_dim) ∧
  c.value_proj.wf vd (c.num_heads * c.head_dim) ∧
  c.output_proj.wf (c.num_heads * c.head_dim) od

/-- Shape wellformedness of the attention bridge for controller dimension
`cd` and worker dimension `wd`. -/
def HierarchicalAttention.wf (ha : HierarchicalAttention) (cd wd : ℕ) : Prop :=
  ha.controller_to_worker_attn.wf wd cd cd wd ∧
  ha.worker_to_controller_attn.wf cd wd wd cd ∧
  ha.cross_attention.wf cd wd wd cd ∧
  ha.controller_gate.wf (2 * cd) cd ∧ ha.worker_gate.wf (2 * wd) wd ∧
  ha.controller_norm.wf cd ∧ ha.worker_norm.wf wd

/-- Shape wellformedness of the whole orchestrator against its
configuration. -/
def HRM.wf (hrm : HRM) (cfg : HRMConfig) : Prop :=
  hrm.input_projection.wf cfg.input_dim cfg.controller_dim ∧
  hrm.controller.wf cfg.controller_dim ∧
  hrm.worker.wf cfg.worker_dim ∧
  hrm.attention.wf cfg.controller_dim cfg.worker_dim ∧
  hrm.controller_to_worker.wf cfg.controller_dim cfg.worker_dim ∧
  hrm.worker_to_controller.wf cfg.worker_dim cfg.controller_dim ∧
  hrm.output_projection.wf cfg.controller_dim cfg.input_dim ∧
  hrm.layer_norm.wf cfg.controller_dim

/-! Concrete instances used in the closed evaluations and witnesses.  All
weights and biases are zero except where noted, which corresponds to a
reachable (trained) parameter state; the primitive functions are simple
computable stand-ins (with `exp` constantly 1, so that `exp` is positive). -/

/-- Concrete primitives: `exp = 1`, `log = 0`, `sin = id`, `cos = (+1)`,
`tanh = 0`, `gelu = 0`, `sqrt = 1`. -/
def P0 : Prims :=
  ⟨fun _ => 1, fun _ => 0, fun t => t, fun t => t + 1, fun _ => 0, fun _ => 0, fun _ => 1⟩

/-- Variant of `P0` whose `gelu` is the identity (used to exhibit a nonzero
GLU value branch). -/
def P1 : Prims :=
  ⟨fun _ => 1, fun _ => 0, fun t => t, fun t => t + 1, fun _ => 0, fun t => t, fun _ => 1⟩

/-- An all-zero `Linear(i, o)`. -/
def zeroLinear (i o : ℕ) : Linear :=
  ⟨List.replicate o (List.replicate i 0), List.replicate o 0⟩

/-- A LayerNorm whose weight entries are all `w` and biases all `b`. -/
def constLayerNorm (w b : ℚ) (d : ℕ) : LayerNorm :=
  ⟨List.replicate d w, List.replicate d b⟩

/-- A dimension-1 single-head gated attention with zero parameters. -/
def gmha1 : GatedMultiHeadAttention :=
  ⟨zeroLinear 1 1, zeroLinear 1 1, zeroLinear 1 1, zeroLinear 1 1, zeroLinear 1 1, 1, 1, true⟩

/-- A dimension-1 feed-forward block with zero parameters. -/
def ff1 : FeedForward := ⟨zeroLinear 1 2, zeroLinear 1 2, zeroLinear 2 1⟩

/-- A dimension-1 controller with one layer and zero parameters. -/
def ctrl1 : Controller :=
  ⟨[⟨gmha1, ff1, constLayerNorm 0 0 1, constLayerNorm 0 0 1⟩],
   ⟨zeroLinear 1 2, zeroLinear 2 1, zeroLinear 1 1, constLayerNorm 0 0 1⟩,
   ⟨zeroLinear 1 1, zeroLinear 1 1⟩⟩

/-- A dimension-1 GRU cell with zero parameters. -/
def gru1 : GRUCell :=
  ⟨zeroLinear 1 1, zeroLinear 1 1, zeroLinear 1 1, zeroLinear 1 1, zeroLinear 1 1, zeroLinear 1 1⟩

/-- A dimension-1 worker layer with zero parameters and both branches
enabled (the convolution accepts its input only because `dim = 1`). -/
def wl1 : WorkerLayer :=
  ⟨1, zeroLinear 1 1, [[[0, 0, 0]]], [0], gru1, zeroLinear 2 1, true, true⟩

/-- A dimension-1 worker with one layer and zero parameters. -/
def worker1 : Worker :=
  ⟨zeroLinear 1 1, [(wl1, constLayerNorm 0 0 1)],
   ⟨zeroLinear 1 2, zeroLinear 2 1, zeroLinear 1 1, constLayerNorm 0 0 1⟩,
   ⟨zeroLinear 1 1, zeroLinear 1 1, constLayerNorm 0 0 1⟩⟩

/-- A dimension-1 single-head same-dimension attention with zero parameters. -/
def mha1 : MultiHeadAttention :=
  ⟨zeroLinear 1 1, zeroLinear 1 1, zeroLinear 1 1, zeroLinear 1 1, 1, 1⟩

/-- An all-dims-1 single-head cross-module attention with zero parameters. -/
def cma1 : CrossModuleAttention :=
  ⟨zeroLinear 1 1, zeroLinear 1 1, zeroLinear 1 1, zeroLinear 1 1, 1, 1, 1, 1, 1⟩

/-- A dims-1 attention bridge with zero parameters. -/
def ha1 : HierarchicalAttention :=
  ⟨cma1, cma1, cma1, zeroLinear 2 1, zeroLinear 2 1,
   constLayerNorm 0 0 1, constLayerNorm 0 0 1, true⟩

/-- A dims-1 orchestrator whose final LayerNorm has weight 0 and bias 1 (so
the post-cycle normalized controller state is the all-ones vector). -/
def hrm1 : HRM :=
  ⟨zeroLinear 1 1, ctrl1, worker1, ha1, zeroLinear 1 1, zeroLinear 1 1,
   zeroLinear 1 1, constLayerNorm 0 1 1⟩

/-- Configuration for `hrm1`: all dimensions 1, one layer, one cycle, bridge
and positional encoding disabled. -/
def cfg1 : HRMConfig := ⟨1, 1, 1, 1, 1, false, false⟩

/-- A (batch 1, seq 1, dim 1) zero input. -/
def x1in : Ten3 := [[[0]]]

/-- The result `HRM.forward P0 cfg1 hrm1 x1in none false` evaluates to. -/
def hrmResult1 : HRMOutput := ⟨[[0]], [[[0]]], [[[0]]], [[1]], [[0]]⟩

/-- A dimension-8 8-head gated attention with zero parameters. -/
def gmha8 : GatedMultiHeadAttention :=
  ⟨zeroLinear 8 8, zeroLinear 8 8, zeroLinear 8 8, zeroLinear 8 8, zeroLinear 8 8, 8, 8, true⟩

/-- A dimension-8 controller with one layer and zero parameters. -/
def ctrl8 : Controller :=
  ⟨[⟨gmha8, ⟨zeroLinear 8 16, zeroLinear 8 16, zeroLinear 16 8⟩,
     constLayerNorm 1 0 8, constLayerNorm 1 0 8⟩],
   ⟨zeroLinear 8 16, zeroLinear 16 8, zeroLinear 8 8, constLayerNorm 1 0 8⟩,
   ⟨zeroLinear 8 8, zeroLinear 8 8⟩⟩

/-- A dimension-8 GRU cell with zero parameters. -/
def gru8 : GRUCell :=
  ⟨zeroLinear 8 8, zeroLinear 8 8, zeroLinear 8 8, zeroLinear 8 8, zeroLinear 8 8, zeroLinear 8 8⟩

/-- A dimension-8 worker layer with the convolution branch enabled, exactly
as `HRM` constructs it (`use_conv` defaults to true). -/
def wl8 : WorkerLayer :=
  ⟨8, zeroLinear 8 8, List.replicate 8 (List.replicate 8 [0, 0, 0]),
   List.replicate 8 0, gru8, zeroLinear 16 8, true, true⟩

/-- A dimension-8 worker with one layer. -/
def worker8 : Worker :=
  ⟨zeroLinear 8 8, [(wl8, constLayerNorm 1 0 8)],
   ⟨zeroLinear 8 16, zeroLinear 16 8, zeroLinear 8 8, constLayerNorm 1 0 8⟩,
   ⟨zeroLinear 8 8, zeroLinear 8 8, constLayerNorm 1 0 8⟩⟩

/-- An all-dims-8 8-head cross-module attention with zero parameters. -/
def cma8 : CrossModuleAttention :=
  ⟨zeroLinear 8 8, zeroLinear 8 8, zeroLinear 8 8, zeroLinear 8 8, 8, 8, 8, 8, 8⟩

/-- A dims-8 attention bridge. -/
def ha8 : HierarchicalAttention :=
  ⟨cma8, cma8, cma8, zeroLinear 16 8, zeroLinear 16 8,
   constLayerNorm 1 0 8, constLayerNorm 1 0 8, true⟩

/-- A controller-dim-8, worker-dim-8 orchestrator parameter set. -/
def hrm8 : HRM :=
  ⟨zeroLinear 1 8, ctrl8, worker8, ha8, zeroLinear 8 8, zeroLinear 8 8,
   zeroLinear 8 1, constLayerNorm 1 0 8⟩

/-- A valid configuration (controller_dim 8 divisible by the 8 heads): one
layer, one cycle, bridge and positional encoding off. -/
def cfg8 : HRMConfig := ⟨1, 8, 8, 1, 1, false, false⟩

/-- The same configuration with the attention bridge enabled (also valid:
`min(8, 8) // 8 = 1 > 0`). -/
def cfg8a : HRMConfig := ⟨1, 8, 8, 1, 1, true, false⟩

/-- A dimension-2 GRU cell with zero parameters. -/
def gru2 : GRUCell :=
  ⟨zeroLinear 2 2, zeroLinear 2 2, zeroLinear 2 2, zeroLinear 2 2, zeroLinear 2 2, zeroLinear 2 2⟩

/-- A dimension-2 worker layer with the convolution branch enabled. -/
def wl2 : WorkerLayer :=
  ⟨2, zeroLinear 2 2, List.replicate 2 (List.replicate 2 [0, 0, 0]),
   List.replicate 2 0, gru2, zeroLinear 4 2, true, true⟩

/-- Feed-forward instance for the C8 counterexample: `up_proj` maps the
1-dimensional input `[1]` to `[1, 1]`, the gate projection is zero (gate
value `1/2` elementwise). -/
def ffc : FeedForward := ⟨zeroLinear 1 2, ⟨[[1], [1]], [0, 0]⟩, zeroLinear 2 1⟩

/-- Small positional-encoding table (`d_model = 2`, `max_len = 3`) under
`P0`: row `pos` is `[pos, pos + 1]`. -/
def peT : Mat := peTable P0 2 3

/-- A zero (batch 2, seq 2, d_model 2) input for the positional-encoding
evaluation. -/
def x4in : Ten3 := [[[0, 0], [0, 0]], [[0, 0], [0, 0]]]

/-- Shape predicate for a 2-D tensor: `r` rows, each of length `c`. -/
def MatShape (m : Mat) (r c : ℕ) : Prop :=
  m.length = r ∧ ∀ row ∈ m, row.length = c

/-! Generic list lemmas. -/

theorem length_vadd (a b : Vec) : (vadd a b).length = min a.length b.length := by
  simp [vadd]

theorem length_vmul (a b : Vec) : (vmul a b).length = min a.length b.length := by
  simp [vmul]

theorem length_onesMinus (a : Vec) : (onesMinus a).length = a.length := by
  simp [onesMinus]

theorem length_sigmoidVec (P : Prims) (v : Vec) : (sigmoidVec P v).length = v.length := by
  simp [sigmoidVec]

theorem length_softmaxV (P : Prims) (v : Vec) : (softmaxV P v).length = v.length := by
  simp [softmaxV]

theorem length_reluVec (v : Vec) : (reluVec v).length = v.length := by
  simp [reluVec]

theorem length_linear_apply (l : Linear) (x : Vec) :
    (l.apply x).length = min l.weight.length l.bias.length := by
  simp [Linear.apply]

theorem length_apply_of_wf {l : Linear} {i o : ℕ} (h : l.wf i o) (x : Vec) :
    (l.apply x).length = o := by
  simp [length_linear_apply, h.1, h.2.1]

theorem length_layerNorm_apply (P : Prims) (ln : LayerNorm) (x : Vec) :
    (ln.apply P x).length = min x.length (min ln.weight.length ln.bias.length) := by
  simp [LayerNorm.apply]

theorem length_layerNorm_of_wf (P : Prims) {ln : LayerNorm} {d : ℕ} (h : ln.wf d)
    {x : Vec} (hx : x.length = d) : (ln.apply P x).length = d := by
  simp [length_layerNorm_apply, h.1, h.2, hx]

theorem mem_zipWith {f : α → β → γ} :
    ∀ {as : List α} {bs : List β} {e : γ}, e ∈ List.zipWith f as bs →
      ∃ a ∈ as, ∃ b ∈ bs, e = f a b := by
  intro as
  induction as with
  | nil => intro bs e h; simp at h
  | cons a as ih =>
    intro bs e h
    cases bs with
    | nil => simp at h
    | cons b bs =>
      simp only [List.zipWith_cons_cons, List.mem_cons] at h
      rcases h with h | h
      · exact ⟨a, by simp, b, by simp, h⟩
      · rcases ih h with ⟨a', ha', b', hb', he⟩
        exact ⟨a', by simp [ha'], b', by simp [hb'], he⟩

theorem length_zipWith3 (f : α → β → γ → δ) :
    ∀ (as : List α) (bs : List β) (cs : List γ),
      (zipWith3 f as bs cs).length = min as.length (min bs.length cs.length) := by
  intro as
  induction as with
  | nil => intro bs cs; simp [zipWith3]
  | cons a as ih =>
    intro bs cs
    cases bs with
    | nil => simp [zipWith3]
    | cons b bs =>
      cases cs with
      | nil => simp [zipWith3]
      | cons c cs =>
        simp [zipWith3, ih, Nat.succ_min_succ]

theorem mem_zipWith3 {f : α → β → γ → δ} :
    ∀ {as : List α} {bs : List β} {cs : List γ} {e : δ}, e ∈ zipWith3 f as bs cs →
      ∃ a ∈ as, ∃ b ∈ bs, ∃ c ∈ cs, e = f a b c := by
  intro as
  induction as with
  | nil => intro bs cs e h; simp [zipWith3] at h
  | cons a as ih =>
    intro bs cs e h
    cases bs with
    | nil => simp [zipWith3] at h
    | cons b bs =>
      cases cs with
      | nil => simp [zipWith3] at h
      | cons c cs =>
        simp only [zipWith3, List.mem_cons] at h
        rcases h with h | h
        · exact ⟨a, by simp, b, by simp, c, by simp, h⟩
        · rcases ih h with ⟨a', ha', b', hb', c', hc', he⟩
          exact ⟨a', by simp [ha'], b', by simp [hb'], c', by simp [hc'], he⟩

theorem length_zipWith4 (f : α → β → γ → δ → ε) :
    ∀ (as : List α) (bs : List β) (cs : List γ) (ds : List δ),
      (zipWith4 f as bs cs ds).length =
        min as.length (min bs.length (min cs.length ds.length)) := by
  intro as
  induction as with
  | nil => intro bs cs ds; simp [zipWith4]
  | cons a as ih =>
    intro bs cs ds
    cases bs with
    | nil => simp [zipWith4]
    | cons b bs =>
      cases cs with
      | nil => simp [zipWith4]
      | cons c cs =>
        cases ds with
        | nil => simp [zipWith4]
        | cons d ds => simp [zipWith4, ih, Nat.succ_min_succ]

theorem mem_zipWith4 {f : α → β → γ → δ → ε} :
    ∀ {as : List α} {bs : List β} {cs : List γ} {ds : List δ} {e : ε},
      e ∈ zipWith4 f as bs cs ds →
      ∃ a ∈ as, ∃ b ∈ bs, ∃ c ∈ cs, ∃ d ∈ ds, e = f a b c d := by
  intro as
  induction as with
  | nil => intro bs cs ds e h; simp [zipWith4] at h
  | cons a as ih =>
    intro bs cs ds e h
    cases bs with
    | nil => simp [zipWith4] at h
    | cons b bs =>
      cases cs with
      | nil => simp [zipWith4] at h
      | cons c cs =>
        cases ds with
        | nil => simp [zipWith4] at h
        | cons d ds =>
          simp only [zipWith4, List.mem_cons] at h
          rcases h with h | h
          · exact ⟨a, by simp, b, by simp, c, by simp, d, by simp, h⟩
          · rcases ih h with ⟨a', ha', b', hb', c', hc', d', hd', he⟩
            exact ⟨a', by simp [ha'], b', by simp [hb'], c', by simp [hc'], d', by simp [hd'], he⟩

theorem getD_mem : ∀ (l : List α) (i : ℕ) (d : α), i < l.length → l.getD i d ∈ l := by
  intro l
  induction l with
  | nil => intro i d h; simp at h
  | cons a t ih =>
    intro i d h
    cases i with
    | zero => simp
    | succ j =>
      simp only [List.getD_cons_succ, List.mem_cons]
      exact Or.inr (ih j d (by simpa using h))

theorem headD_mem {l : List α} (h : l ≠ []) (d : α) : l.headD d ∈ l := by
  cases l with
  | nil => exact absurd rfl h
  | cons a t => simp

theorem getD_map_getD (b : ℕ) :
    ∀ (l : List Mat) (k : ℕ),
      (l.map (fun m => m.getD b [])).getD k [] = (l.getD k []).getD b [] := by
  intro l
  induction l with
  | nil => intro k; simp
  | cons m t ih =>
    intro k
    cases k with
    | zero => simp
    | succ j => simpa using ih j

theorem getD_map_range (f : ℕ → α) (n b : ℕ) (hb : b < n) (d : α) :
    ((List.range n).map f).getD b d = f b := by
  rw [List.getD_eq_getElem?_getD, List.getElem?_map, List.getElem?_range hb]
  rfl

theorem getD_append_left (l1 l2 : List α) (i : ℕ) (d : α) (h : i < l1.length) :
    (l1 ++ l2).getD i d = l1.getD i d := by
  rw [List.getD_eq_getElem?_getD, List.getD_eq_getElem?_getD,
    List.getElem?_append, if_pos h]

theorem getD_append_at (l1 l2 : List α) (a : α) (d : α) :
    (l1 ++ a :: l2).getD l1.length d = a := by
  rw [List.getD_eq_getElem?_getD, List.getElem?_append_right (Nat.le_refl _)]
  simp

/-! Activation-function lemmas. -/

theorem sigmoid_nonneg (P : Prims) (hP : ∀ t, 0 < P.exp t) (x : ℚ) :
    0 ≤ sigmoid P x := by
  have hd : (0 : ℚ) < 1 + P.exp (-x) := by
    have := hP (-x); linarith
  exact le_of_lt (div_pos one_pos hd)

theorem sigmoid_le_one (P : Prims) (hP : ∀ t, 0 < P.exp t) (x : ℚ) :
    sigmoid P x ≤ 1 := by
  have he := hP (-x)
  have hd : (0 : ℚ) < 1 + P.exp (-x) := by linarith
  rw [sigmoid, div_le_one hd]
  linarith

theorem sigmoidVec_mem_bounds (P : Prims) (hP : ∀ t, 0 < P.exp t) (v : Vec) :
    ∀ g ∈ sigmoidVec P v, 0 ≤ g ∧ g ≤ 1 := by
  intro g hg
  rcases List.mem_map.mp hg with ⟨a, _, rfl⟩
  exact ⟨sigmoid_nonneg P hP a, sigmoid_le_one P hP a⟩

theorem sum_map_div (l : List ℚ) (c : ℚ) :
    (l.map (fun a => a / c)).sum = l.sum / c := by
  induction l with
  | nil => simp
  | cons a t ih => simp [ih, add_div]

theorem softmaxV_sum (P : Prims) (hP : ∀ t, 0 < P.exp t) (v : Vec) (hv : v ≠ []) :
    (softmaxV P v).sum = 1 := by
  have hne : v.map P.exp ≠ [] := by simpa using hv
  have hpos : 0 < (v.map P.exp).sum := by
    refine List.sum_pos _ ?_ hne
    intro a ha
    rcases List.mem_map.mp ha with ⟨t, _, rfl⟩
    exact hP t
  simp only [softmaxV, sum_map_div]
  exact div_self (ne_of_gt hpos)

/-! Except-monad helpers. -/

theorem exceptBind_ok {e : Except String α} {f : α → Except String β} {c : β} :
    (e >>= f) = .ok c ↔ ∃ b, e = .ok b ∧ f b = .ok c := by
  cases e <;> simp [Bind.bind, Except.bind]

theorem exceptMap_ok {f : α → β} {e : Except String α} {c : β} :
    (Except.map f e) = .ok c ↔ ∃ b, e = .ok b ∧ c = f b := by
  cases e with
  | error a => simp [Except.map]
  | ok a => simp [Except.map, eq_comm]

theorem zipWithE_ok_length {f : α → β → Except String γ} :
    ∀ {as : List α} {bs : List β} {cs : List γ}, zipWithE f as bs = .ok cs →
      cs.length = min as.length bs.length := by
  intro as
  induction as with
  | nil =>
    intro bs cs h
    cases bs with
    | nil =>
      simp only [zipWithE, Except.ok.injEq] at h
      simp [← h]
    | cons b bs =>
      simp only [zipWithE, Except.ok.injEq] at h
      simp [← h]
  | cons a as ih =>
    intro bs cs h
    cases bs with
    | nil =>
      simp only [zipWithE, Except.ok.injEq] at h
      simp [← h]
    | cons b bs =>
      simp only [zipWithE, exceptBind_ok] at h
      rcases h with ⟨c, _, cs', hcs', hc⟩
      simp only [Except.ok.injEq] at hc
      subst hc
      simp [ih hcs', Nat.succ_min_succ]

theorem zipWithE_ok_mem {f : α → β → Except String γ} :
    ∀ {as : List α} {bs : List β} {cs : List γ}, zipWithE f as bs = .ok cs →
      ∀ c ∈ cs, ∃ a ∈ as, ∃ b ∈ bs, f a b = .ok c := by
  intro as
  induction as with
  | nil =>
    intro bs cs h c hc
    cases bs with
    | nil =>
      simp only [zipWithE, Except.ok.injEq] at h
      rw [← h] at hc
      simp at hc
    | cons b bs =>
      simp only [zipWithE, Except.ok.injEq] at h
      rw [← h] at hc
      simp at hc
  | cons a as ih =>
    intro bs cs h c hc
    cases bs with
    | nil =>
      simp only [zipWithE, Except.ok.injEq] at h
      rw [← h] at hc
      simp at hc
    | cons b bs =>
      simp only [zipWithE, exceptBind_ok] at h
      rcases h with ⟨c0, hc0, cs', hcs', hc'⟩
      simp only [Except.ok.injEq] at hc'
      subst hc'
      rcases List.mem_cons.mp hc with rfl | hmem
      · exact ⟨a, by simp, b, by simp, hc0⟩
      · rcases ih hcs' c hmem with ⟨a', ha', b', hb', he⟩
        exact ⟨a', by simp [ha'], b', by simp [hb'], he⟩

/-! Per-module shape lemmas. -/

theorem length_attendCore_fst (P : Prims) (nh hd : ℕ) (Q K V : Mat) (mask : Option Vec) :
    (attendCore P nh hd Q K V mask).1.length = Q.length := by
  simp [attendCore, joinHeads]

theorem gmha_forward_fst_shape {m : GatedMultiHeadAttention} {d : ℕ} (hwf : m.wf d)
    (P : Prims) {query : Mat} (key value : Mat) (mask : Option Vec)
    (hq : ∀ r ∈ query, r.length = d) :
    ((m.forward P query key value mask).1).length = query.length ∧
    ∀ r ∈ (m.forward P query key value mask).1, r.length = d := by
  obtain ⟨hwq, hwk, hwv, hwo, hwg⟩ := hwf
  simp only [GatedMultiHeadAttention.forward]
  cases hug : m.use_gated with
  | true =>
    simp only [if_pos rfl]
    constructor
    · simp [length_attendCore_fst]
    · intro r hr
      rcases mem_zipWith hr with ⟨o, homem, q, hqmem, rfl⟩
      have hglen : (m.gateVec P q).length = d := by
        simp [GatedMultiHeadAttention.gateVec, length_sigmoidVec, length_apply_of_wf hwg]
      rcases List.mem_map.mp homem with ⟨core1, _, rfl⟩
      simp [length_vadd, length_vmul, length_onesMinus, hglen,
        length_apply_of_wf hwo, hq q hqmem]
  | false =>
    simp only [Bool.false_eq_true, if_false]
    constructor
    · simp [length_attendCore_fst]
    · intro r hr
      rcases List.mem_map.mp hr with ⟨core1, _, rfl⟩
      simp [length_apply_of_wf hwo]

theorem foldl_vadd_length {d : ℕ} :
    ∀ (l : List Vec) (acc : Vec), acc.length = d → (∀ v ∈ l, v.length = d) →
      (l.foldl vadd acc).length = d := by
  intro l
  induction l with
  | nil => intro acc ha _; simpa using ha
  | cons v t ih =>
    intro acc ha hl
    have : (vadd acc v).length = d := by
      simp [length_vadd, ha, hl v (by simp)]
    exact ih _ this (fun u hu => hl u (by simp [hu]))

theorem matMean_length {m : Mat} {d : ℕ} (hm : m ≠ [])
    (hrows : ∀ r ∈ m, r.length = d) : (matMean m).length = d := by
  cases m with
  | nil => exact absurd rfl hm
  | cons r rs =>
    simp only [matMean, List.length_map]
    exact foldl_vadd_length rs r (hrows r (by simp)) (fun u hu => hrows u (by simp [hu]))

theorem controllerLayerStep_shape {L : ControllerLayer} {d : ℕ} (hwf : L.wf d)
    (P : Prims) (mask : Option Vec) {x : Mat} (hx : ∀ r ∈ x, r.length = d) :
    (controllerLayerStep P mask L x).length = x.length ∧
    ∀ r ∈ controllerLayerStep P mask L x, r.length = d := by
  obtain ⟨hattn, hff, hn1, hn2⟩ := hwf
  simp only [controllerLayerStep]
  have hxn : ∀ r ∈ x.map (L.norm1.apply P), r.length = d := by
    intro r hr
    rcases List.mem_map.mp hr with ⟨r0, hr0, rfl⟩
    exact length_layerNorm_of_wf P hn1 (hx r0 hr0)
  have hxnlen : (x.map (L.norm1.apply P)).length = x.length := by simp
  have ha := gmha_forward_fst_shape hattn P (x.map (L.norm1.apply P))
    (x.map (L.norm1.apply P)) mask hxn
  have hx1 : ∀ r ∈ List.zipWith vadd x
      ((L.attn.forward P (x.map (L.norm1.apply P)) (x.map (L.norm1.apply P))
        (x.map (L.norm1.apply P)) mask).1), r.length = d := by
    intro r hr
    rcases mem_zipWith hr with ⟨a, hamem, b, hbmem, rfl⟩
    simp [length_vadd, hx a hamem, ha.2 b hbmem]
  have hx1len : (List.zipWith vadd x
      ((L.attn.forward P (x.map (L.norm1.apply P)) (x.map (L.norm1.apply P))
        (x.map (L.norm1.apply P)) mask).1)).length = x.length := by
    simp [ha.1, hxnlen]
  constructor
  · simp only [List.length_zipWith, List.length_map, hx1len, min_self]
  · intro r hr
    rcases mem_zipWith hr with ⟨a, hamem, b, hbmem, rfl⟩
    have hb : b.length = d := by
      rcases List.mem_map.mp hbmem with ⟨b1, hb1, rfl⟩
      rcases List.mem_map.mp hb1 with ⟨b2, hb2, rfl⟩
      simp [FeedForward.forward, length_apply_of_wf hff.2.2]
    simp [length_vadd, hx1 a hamem, hb]

theorem controllerLoop_shape {d : ℕ} (P : Prims) (mask : Option Vec) :
    ∀ (ls : List ControllerLayer) (x : Mat) (h : Vec),
      (∀ L ∈ ls, L.wf d) → (∀ r ∈ x, r.length = d) → x ≠ [] → h.length = d →
      ((controllerLoop P mask ls x h).1.length = x.length ∧
       (∀ r ∈ (controllerLoop P mask ls x h).1, r.length = d) ∧
       (controllerLoop P mask ls x h).2.length = d) := by
  intro ls
  induction ls with
  | nil =>
    intro x h _ hx hne hh
    exact ⟨rfl, hx, hh⟩
  | cons L rest ih =>
    intro x h hwf hx hne hh
    have hstep := controllerLayerStep_shape (hwf L (by simp)) P mask hx
    have hne1 : controllerLayerStep P mask L x ≠ [] := by
      intro hcon
      have := hstep.1
      rw [hcon] at this
      exact hne (List.eq_nil_of_length_eq_zero this.symm)
    have hmean : (matMean (controllerLayerStep P mask L x)).length = d :=
      matMean_length hne1 hstep.2
    have hh' : (vadd h (matMean (controllerLayerStep P mask L x))).length = d := by
      simp [length_vadd, hh, hmean]
    have := ih (controllerLayerStep P mask L x)
      (vadd h (matMean (controllerLayerStep P mask L x)))
      (fun L' hL' => hwf L' (by simp [hL'])) hstep.2 hne1 hh'
    simp only [controllerLoop]
    exact ⟨by rw [this.1, hstep.1], this.2.1, this.2.2⟩

theorem controller_forward_length {c : Controller} {d : ℕ} (hwf : c.wf d)
    (P : Prims) {x : Mat} {h : Vec} (mask : Option Vec)
    (hx : ∀ r ∈ x, r.length = d) (hne : x ≠ []) (hh : h.length = d) :
    (Controller.forward P c x h mask).length = d := by
  obtain ⟨hlayers, hplan, hgoal⟩ := hwf
  simp only [Controller.forward]
  have hgoallen : (c.goal.forward P h).length = d := by
    simp [GoalEncoder.forward, length_apply_of_wf hgoal.2]
  have hx0 : ∀ r ∈ x.map (fun r => vadd r (c.goal.forward P h)), r.length = d := by
    intro r hr
    rcases List.mem_map.mp hr with ⟨r0, hr0, rfl⟩
    simp [length_vadd, hx r0 hr0, hgoallen]
  have hne0 : x.map (fun r => vadd r (c.goal.forward P h)) ≠ [] := by
    simpa using hne
  have hloop := controllerLoop_shape P mask c.layers _ h hlayers hx0 hne0 hh
  have hplanlen : ∀ v : Vec, (c.planning.forward P v).length = d := by
    intro v
    simp [PlanningNetwork.forward, length_apply_of_wf hplan.2.2.1]
  simp [length_vadd, hloop.2.2, hplanlen]

theorem gru_forward_length {g : GRUCell} {d : ℕ} (hwf : g.wf d) (P : Prims)
    {x h : Vec} (hh : h.length = d) : (g.forward P x h).length = d := by
  obtain ⟨hir, hiz, hin, hhr, hhz, hhn⟩ := hwf
  simp [GRUCell.forward, length_vadd, length_vmul, length_onesMinus,
    length_sigmoidVec, length_apply_of_wf hir, length_apply_of_wf hiz,
    length_apply_of_wf hin, length_apply_of_wf hhr, length_apply_of_wf hhz,
    length_apply_of_wf hhn, hh]

theorem convBranch_ok_length {wl : WorkerLayer} {d : ℕ} (hwf : wl.wf d)
    {x v : Vec} (hx : x.length = d) (h : wl.convBranch x = .ok v) :
    v.length = d := by
  obtain ⟨hdim, _, hcw, hcb, _, _⟩ := hwf
  cases huc : wl.use_conv with
  | true =>
    rw [WorkerLayer.convBranch, huc, if_pos rfl] at h
    rcases exceptMap_ok.mp h with ⟨m, hm, rfl⟩
    rw [conv1d] at hm
    by_cases hcond : ([x] : Mat).length = wl.dim
    · rw [if_pos hcond] at hm
      simp only [Except.ok.injEq] at hm
      subst hm
      simp [hcw, hcb]
    · rw [if_neg hcond] at hm
      cases hm
  | false =>
    rw [WorkerLayer.convBranch, huc] at h
    simp only [Bool.false_eq_true, if_false, Except.ok.injEq] at h
    subst h
    exact hx

theorem workerLayer_forward_ok_shape {wl : WorkerLayer} {d : ℕ} (hwf : wl.wf d)
    (P : Prims) {x h out h' : Vec} (hx : x.length = d) (hh : h.length = d)
    (hfwd : wl.forward P x h = .ok (out, h')) : out.length = d ∧ h'.length = d := by
  have hwfc := hwf
  obtain ⟨hdim, hlin, hcw, hcb, hgru, hgate⟩ := hwfc
  simp only [WorkerLayer.forward, exceptBind_ok] at hfwd
  rcases hfwd with ⟨conv, hconv, hrest⟩
  simp only [Except.ok.injEq, Prod.mk.injEq] at hrest
  obtain ⟨hout, hh'⟩ := hrest
  have hconvlen : conv.length = d := convBranch_ok_length hwf hx hconv
  have hgrulen : (wl.gruBranch P x h).length = d := by
    cases hug : wl.use_gru with
    | true =>
      rw [WorkerLayer.gruBranch, hug, if_pos rfl]
      exact gru_forward_length hgru P hh
    | false =>
      rw [WorkerLayer.gruBranch, hug]
      simpa using hx
  have hglen : (wl.gateVec P conv (wl.gruBranch P x h)).length = d := by
    simp [WorkerLayer.gateVec, length_sigmoidVec, length_apply_of_wf hgate]
  have houtlen : out.length = d := by
    rw [← hout]
    simp [length_vadd, length_vmul, length_onesMinus, hglen, hconvlen, hgrulen,
      length_apply_of_wf hlin]
  refine ⟨houtlen, ?_⟩
  rw [← hh', hout]
  simp [length_vadd, hh, houtlen]

theorem workerLoop_ok_shape {d : ℕ} (P : Prims) :
    ∀ (ls : List (WorkerLayer × LayerNorm)) (x h x' h' : Vec),
      (∀ l ∈ ls, l.1.wf d ∧ l.2.wf d) → x.length = d → h.length = d →
      workerLoop P ls x h = .ok (x', h') → x'.length = d ∧ h'.length = d := by
  intro ls
  induction ls with
  | nil =>
    intro x h x' h' _ hx hh hloop
    simp only [workerLoop, Except.ok.injEq, Prod.mk.injEq] at hloop
    obtain ⟨h1, h2⟩ := hloop
    exact ⟨h1 ▸ hx, h2 ▸ hh⟩
  | cons l rest ih =>
    intro x h x' h' hwf hx hh hloop
    simp only [workerLoop, exceptBind_ok] at hloop
    rcases hloop with ⟨ohp, hohp, hrest⟩
    have hxn : (l.2.apply P x).length = d :=
      length_layerNorm_of_wf P (hwf l (by simp)).2 hx
    have := workerLayer_forward_ok_shape (hwf l (by simp)).1 P hxn hh
      (by rw [← hohp])
    have hshape := this
    have hx1 : (vadd x ohp.1).length = d := by
      simp [length_vadd, hx, hshape.1]
    exact ih _ _ _ _ (fun u hu => hwf u (by simp [hu])) hx1 hshape.2 hrest

theorem worker_forward_ok_length {w : Worker} {d : ℕ} (hwf : w.wf d) (P : Prims)
    {x h v : Vec} (hh : h.length = d) (hfwd : w.forward P x h = .ok v) :
    v.length = d := by
  obtain ⟨hproj, hlayers, hpat, hresp⟩ := hwf
  simp only [Worker.forward, exceptBind_ok] at hfwd
  rcases hfwd with ⟨xh, hxh, hres⟩
  simp only [Except.ok.injEq] at hres
  have hx0 : (w.input_projection.apply x).length = d := length_apply_of_wf hproj x
  have hloop := workerLoop_ok_shape P w.layers _ h xh.1 xh.2 hlayers hx0 hh
    (by rw [← hxh])
  rw [← hres]
  simp [length_vadd, hloop.2, PatternRecognitionNetwork.forward,
    FastResponseNetwork.forward, length_apply_of_wf hpat.2.2.1,
    length_apply_of_wf hresp.2.1]

theorem cma_forward_fst_shape {c : CrossModuleAttention} {qd kd vd od : ℕ}
    (hwf : c.wf qd kd vd od) (P : Prims) (q k v : Mat) (mask : Option Vec) :
    ((c.forward P q k v mask).1).length = q.length ∧
    ∀ r ∈ (c.forward P q k v mask).1, r.length = od := by
  constructor
  · simp [CrossModuleAttention.forward, length_attendCore_fst]
  · intro r hr
    simp only [CrossModuleAttention.forward] at hr
    rcases List.mem_map.mp hr with ⟨r0, _, rfl⟩
    exact length_apply_of_wf hwf.2.2.2.2.2.2.2 r0

theorem ha_forward_shape {ha : HierarchicalAttention} {cd wd : ℕ}
    (hwf : ha.wf cd wd) (P : Prims) {cs ws : Vec} (mask : Option Vec)
    (hcs : cs.length = cd) (hws : ws.length = wd) :
    ((ha.forward P cs ws mask).1).length = cd ∧
    ((ha.forward P cs ws mask).2).length = wd := by
  obtain ⟨hc2w, hw2c, hcross, hcg, hwg, hcn, hwn⟩ := hwf
  have hw2clen : (ha.w2cAttended P cs ws mask).length = cd := by
    have hshape := cma_forward_fst_shape hw2c P [cs] [ws] [ws] mask
    have hne : (ha.worker_to_controller_attn.forward P [cs] [ws] [ws] mask).1 ≠ [] := by
      intro hcon
      have := hshape.1
      rw [hcon] at this
      simp at this
    exact hshape.2 _ (headD_mem hne [])
  have hc2wlen : (ha.c2wAttended P cs ws mask).length = wd := by
    have hshape := cma_forward_fst_shape hc2w P [ws] [cs] [cs] mask
    have hne : (ha.controller_to_worker_attn.forward P [ws] [cs] [cs] mask).1 ≠ [] := by
      intro hcon
      have := hshape.1
      rw [hcon] at this
      simp at this
    exact hshape.2 _ (headD_mem hne [])
  have hcrosslen : (ha.crossAttended P cs ws mask).length = cd := by
    have hshape := cma_forward_fst_shape hcross P [cs] [ws] [ws] mask
    have hne : (ha.cross_attention.forward P [cs] [ws] [ws] mask).1 ≠ [] := by
      intro hcon
      have := hshape.1
      rw [hcon] at this
      simp at this
    exact hshape.2 _ (headD_mem hne [])
  have hcglen : (ha.controllerGateVec P cs ws mask).length = cd := by
    simp [HierarchicalAttention.controllerGateVec, length_sigmoidVec,
      length_apply_of_wf hcg]
  have hwglen : (ha.workerGateVec P cs ws mask).length = wd := by
    simp [HierarchicalAttention.workerGateVec, length_sigmoidVec,
      length_apply_of_wf hwg]
  have hc0 : (ha.controllerCombined P cs ws mask).length = cd := by
    simp [HierarchicalAttention.controllerCombined, length_vadd, length_vmul,
      length_onesMinus, hcglen, hw2clen, hcs]
  have hw0 : (ha.workerCombined P cs ws mask).length = wd := by
    simp [HierarchicalAttention.workerCombined, length_vadd, length_vmul,
      length_onesMinus, hwglen, hc2wlen, hws]
  constructor
  · by_cases hux : ha.use_cross_attention
    · simp only [HierarchicalAttention.forward, hux, if_true]
      exact length_layerNorm_of_wf P hcn (by simp [length_vadd, hc0, hcrosslen])
    · simp only [HierarchicalAttention.forward, hux, if_false]
      exact length_layerNorm_of_wf P hcn hc0
  · simp only [HierarchicalAttention.forward]
    exact length_layerNorm_of_wf P hwn hw0

/-! Orchestrator-level lemmas. -/

theorem length_batchMasks (mask : Option Mat) (batch : ℕ) :
    (batchMasks mask batch).length = batch := by
  simp [batchMasks]

theorem peTable_rows (P : Prims) (dm ml : ℕ) :
    ∀ r ∈ peTable P dm ml, r.length = dm := by
  intro r hr
  simp only [peTable] at hr
  rcases List.mem_map.mp hr with ⟨pos, _, rfl⟩
  simp

theorem posenc_ok_shape {pe : Mat} {x1 x2 : Ten3} {d : ℕ}
    (hpe : ∀ r ∈ pe, r.length = d)
    (h1 : ∀ xb ∈ x1, xb ≠ ([] : Mat) ∧ ∀ r ∈ xb, r.length = d)
    (hok : PositionalEncoding.forward pe x1 = .ok x2) :
    x2.length = x1.length ∧ ∀ xb ∈ x2, xb ≠ ([] : Mat) ∧ ∀ r ∈ xb, r.length = d := by
  rw [PositionalEncoding.forward] at hok
  by_cases hc1 : (pe.take x1.length).length = x1.length
  · rw [if_pos hc1] at hok
    simp only [Except.ok.injEq] at hok
    subst hok
    constructor
    · simp [hc1]
    · intro xb hxb
      rcases mem_zipWith hxb with ⟨xb0, hxb0, pb, hpb, rfl⟩
      have hpblen : pb.length = d := hpe pb (List.take_subset _ _ hpb)
      refine ⟨by simpa using (h1 xb0 hxb0).1, ?_⟩
      intro r hr
      rcases List.mem_map.mp hr with ⟨r0, hr0, rfl⟩
      simp [length_vadd, (h1 xb0 hxb0).2 r0 hr0, hpblen]
  · rw [if_neg hc1] at hok
    by_cases hc2 : (pe.take x1.length).length = 1
    · rw [if_pos hc2] at hok
      simp only [Except.ok.injEq] at hok
      subst hok
      have hslne : pe.take x1.length ≠ [] := by
        intro hcon
        rw [hcon] at hc2
        simp at hc2
      have hpblen : ((pe.take x1.length).headD []).length = d :=
        hpe _ (List.take_subset _ _ (headD_mem hslne []))
      constructor
      · simp
      · intro xb hxb
        rcases List.mem_map.mp hxb with ⟨xb0, hxb0, rfl⟩
        refine ⟨by simpa using (h1 xb0 hxb0).1, ?_⟩
        intro r hr
        rcases List.mem_map.mp hr with ⟨r0, hr0, rfl⟩
        rw [length_vadd, (h1 xb0 hxb0).2 r0 hr0, hpblen, min_self]
    · rw [if_neg hc2] at hok
      cases hok

theorem hrmPrepare_ok_shape {P : Prims} {cfg : HRMConfig} {hrm : HRM} {x x2 : Ten3}
    (hproj : hrm.input_projection.wf cfg.input_dim cfg.controller_dim)
    (hseq : ∀ xb ∈ x, xb ≠ ([] : Mat))
    (hok : hrmPrepare P cfg hrm x = .ok x2) :
    x2.length = x.length ∧
    ∀ xb ∈ x2, xb ≠ ([] : Mat) ∧ ∀ r ∈ xb, r.length = cfg.controller_dim := by
  rw [hrmPrepare] at hok
  have hx1 : ∀ xb ∈ x.map (fun xb => xb.map hrm.input_projection.apply),
      xb ≠ ([] : Mat) ∧ ∀ r ∈ xb, r.length = cfg.controller_dim := by
    intro xb hxb
    rcases List.mem_map.mp hxb with ⟨xb0, hxb0, rfl⟩
    refine ⟨by simpa using hseq xb0 hxb0, ?_⟩
    intro r hr
    rcases List.mem_map.mp hr with ⟨r0, _, rfl⟩
    exact length_apply_of_wf hproj r0
  cases hup : cfg.use_positional_encoding with
  | true =>
    rw [hup, if_pos rfl] at hok
    have := posenc_ok_shape
      (peTable_rows P cfg.controller_dim peMaxLen) hx1 hok
    exact ⟨by simpa using this.1, this.2⟩
  | false =>
    rw [hup] at hok
    simp only [Bool.false_eq_true, if_false, Except.ok.injEq] at hok
    subst hok
    exact ⟨by simp, hx1⟩

theorem hrmCycle_ok_shape {hrm : HRM} {cfg : HRMConfig} (hwf : hrm.wf cfg)
    (P : Prims) (ua : Bool) {x2 : Ten3} {masks : List (Option Vec)}
    {cs ws : Mat} {q : CycleOut} {batch : ℕ}
    (hx2len : x2.length = batch)
    (hx2rows : ∀ xb ∈ x2, xb ≠ ([] : Mat) ∧ ∀ r ∈ xb, r.length = cfg.controller_dim)
    (hmasks : masks.length = batch)
    (hcs : MatShape cs batch cfg.controller_dim)
    (hws : MatShape ws batch cfg.worker_dim)
    (hq : hrmCycle P hrm ua x2 masks cs ws = .ok q) :
    MatShape q.recC batch cfg.controller_dim ∧ MatShape q.recW batch cfg.worker_dim ∧
    MatShape q.newC batch cfg.controller_dim ∧ MatShape q.newW batch cfg.worker_dim := by
  obtain ⟨hproj, hctrl, hworker, hattn, hc2w, hw2c, hout, hnorm⟩ := hwf
  simp only [hrmCycle, exceptBind_ok] at hq
  rcases hq with ⟨w1, hw1, hrest⟩
  simp only [Except.ok.injEq] at hrest
  subst hrest
  have hc1 : MatShape (zipWith3 (fun xb h mk => hrm.controller.forward P xb h mk)
      x2 cs masks) batch cfg.controller_dim := by
    constructor
    · simp [length_zipWith3, hx2len, hcs.1, hmasks]
    · intro r hr
      rcases mem_zipWith3 hr with ⟨xb, hxb, h, hh, mk, _, rfl⟩
      exact controller_forward_length hctrl P mk (hx2rows xb hxb).2
        (hx2rows xb hxb).1 (hcs.2 h hh)
  have hwIn : MatShape ((zipWith3 (fun xb h mk => hrm.controller.forward P xb h mk)
      x2 cs masks).map hrm.controller_to_worker.apply) batch cfg.worker_dim := by
    constructor
    · simp [hc1.1]
    · intro r hr
      rcases List.mem_map.mp hr with ⟨r0, _, rfl⟩
      exact length_apply_of_wf hc2w r0
  have hw1shape : MatShape w1 batch cfg.worker_dim := by
    constructor
    · rw [zipWithE_ok_length hw1, hwIn.1, hws.1, min_self]
    · intro r hr
      rcases zipWithE_ok_mem hw1 r hr with ⟨xi, _, h, hh, hfwd⟩
      exact worker_forward_ok_length hworker P (hws.2 h hh) hfwd
  set c1 := zipWith3 (fun xb h mk => hrm.controller.forward P xb h mk) x2 cs masks with hc1def
  set fused := (if ua = true then
      zipWith3 (fun c w mk => hrm.attention.forward P c w mk) c1 w1 masks
    else List.zipWith (fun c w => (c, w)) c1 w1) with hfdef
  have hflen : fused.length = batch := by
    rw [hfdef]
    cases hua : ua with
    | true =>
      rw [if_pos rfl, length_zipWith3, hc1.1, hw1shape.1, hmasks]
      simp
    | false =>
      simp only [Bool.false_eq_true, if_false, List.length_zipWith, hc1.1, hw1shape.1]
      simp
  have hfrowsC : ∀ p ∈ fused, p.1.length = cfg.controller_dim := by
    rw [hfdef]
    cases hua : ua with
    | true =>
      rw [if_pos rfl]
      intro p hp
      rcases mem_zipWith3 hp with ⟨c, hc, w, hw, mk, _, rfl⟩
      exact (ha_forward_shape hattn P mk (hc1.2 c hc) (hw1shape.2 w hw)).1
    | false =>
      simp only [Bool.false_eq_true, if_false]
      intro p hp
      rcases mem_zipWith hp with ⟨c, hc, w, _, rfl⟩
      exact hc1.2 c hc
  have hfrowsW : ∀ p ∈ fused, p.2.length = cfg.worker_dim := by
    rw [hfdef]
    cases hua : ua with
    | true =>
      rw [if_pos rfl]
      intro p hp
      rcases mem_zipWith3 hp with ⟨c, hc, w, hw, mk, _, rfl⟩
      exact (ha_forward_shape hattn P mk (hc1.2 c hc) (hw1shape.2 w hw)).2
    | false =>
      simp only [Bool.false_eq_true, if_false]
      intro p hp
      rcases mem_zipWith hp with ⟨c, _, w, hw, rfl⟩
      exact hw1shape.2 w hw
  refine ⟨hc1, hw1shape, ?_, ?_⟩
  · constructor
    · simp only [List.length_map, List.length_zipWith, hflen, min_self]
    · intro r hr
      rcases List.mem_map.mp hr with ⟨r0, hr0, rfl⟩
      rcases mem_zipWith hr0 with ⟨a, ha, b, hb, rfl⟩
      rcases List.mem_map.mp ha with ⟨pa, hpa, rfl⟩
      rcases List.mem_map.mp hb with ⟨b0, hb0, rfl⟩
      rcases List.mem_map.mp hb0 with ⟨pb, hpb, rfl⟩
      refine length_layerNorm_of_wf P hnorm ?_
      rw [length_vadd, hfrowsC pa hpa, length_apply_of_wf hw2c, min_self]
  · constructor
    · simp [hflen]
    · intro r hr
      rcases List.mem_map.mp hr with ⟨p, hp, rfl⟩
      exact hfrowsW p hp

theorem hrmLoop_ok_shape {hrm : HRM} {cfg : HRMConfig} (hwf : hrm.wf cfg)
    (P : Prims) (ua : Bool) {x2 : Ten3} {masks : List (Option Vec)} {batch : ℕ}
    (hx2len : x2.length = batch)
    (hx2rows : ∀ xb ∈ x2, xb ≠ ([] : Mat) ∧ ∀ r ∈ xb, r.length = cfg.controller_dim)
    (hmasks : masks.length = batch) :
    ∀ (n : ℕ) (cs ws : Mat) (ch wh : List Mat)
      (out : Mat × Mat × List Mat × List Mat),
      MatShape cs batch cfg.controller_dim → MatShape ws batch cfg.worker_dim →
      (∀ m ∈ ch, MatShape m batch cfg.controller_dim) →
      (∀ m ∈ wh, MatShape m batch cfg.worker_dim) →
      hrmLoop P hrm ua x2 masks n cs ws ch wh = .ok out →
      MatShape out.1 batch cfg.controller_dim ∧
      MatShape out.2.1 batch cfg.worker_dim ∧
      out.2.2.1.length = ch.length + n ∧
      (∀ m ∈ out.2.2.1, MatShape m batch cfg.controller_dim) ∧
      out.2.2.2.length = wh.length + n ∧
      (∀ m ∈ out.2.2.2, MatShape m batch cfg.worker_dim) := by
  intro n
  induction n with
  | zero =>
    intro cs ws ch wh out hcs hws hch hwh hloop
    simp only [hrmLoop, Except.ok.injEq] at hloop
    subst hloop
    exact ⟨hcs, hws, by simp, hch, by simp, hwh⟩
  | succ n ih =>
    intro cs ws ch wh out hcs hws hch hwh hloop
    simp only [hrmLoop, exceptBind_ok] at hloop
    rcases hloop with ⟨q, hq, hrest⟩
    have hqs := hrmCycle_ok_shape hwf P ua hx2len hx2rows hmasks hcs hws hq
    have hch' : ∀ m ∈ ch ++ [q.recC], MatShape m batch cfg.controller_dim := by
      intro m hm
      rcases List.mem_append.mp hm with hm | hm
      · exact hch m hm
      · simp only [List.mem_singleton] at hm
        exact hm ▸ hqs.1
    have hwh' : ∀ m ∈ wh ++ [q.recW], MatShape m batch cfg.worker_dim := by
      intro m hm
      rcases List.mem_append.mp hm with hm | hm
      · exact hwh m hm
      · simp only [List.mem_singleton] at hm
        exact hm ▸ hqs.2.1
    have := ih q.newC q.newW (ch ++ [q.recC]) (wh ++ [q.recW]) out
      hqs.2.2.1 hqs.2.2.2 hch' hwh' hrest
    refine ⟨this.1, this.2.1, ?_, this.2.2.2.1, ?_, this.2.2.2.2.2⟩
    · rw [this.2.2.1]
      simp
      omega
    · rw [this.2.2.2.2.1]
      simp
      omega

theorem hrmCycle_ok_batch {P : Prims} {hrm : HRM} {ua : Bool} {x2 : Ten3}
    {masks : List (Option Vec)} {cs ws : Mat} {q : CycleOut} {batch : ℕ}
    (hx2len : x2.length = batch) (hmasks : masks.length = batch)
    (hcs : cs.length = batch) (hws : ws.length = batch)
    (hq : hrmCycle P hrm ua x2 masks cs ws = .ok q) :
    q.recC.length = batch ∧ q.recW.length = batch ∧
    q.newC.length = batch ∧ q.newW.length = batch := by
  simp only [hrmCycle, exceptBind_ok] at hq
  rcases hq with ⟨w1, hw1, hrest⟩
  simp only [Except.ok.injEq] at hrest
  subst hrest
  have hc1len : (zipWith3 (fun xb h mk => hrm.controller.forward P xb h mk)
      x2 cs masks).length = batch := by
    rw [length_zipWith3, hx2len, hcs, hmasks]
    simp
  have hw1len : w1.length = batch := by
    rw [zipWithE_ok_length hw1]
    simp [hc1len, hws]
  have hflen : (if ua = true then
      zipWith3 (fun c w mk => hrm.attention.forward P c w mk)
        (zipWith3 (fun xb h mk => hrm.controller.forward P xb h mk) x2 cs masks) w1 masks
    else List.zipWith (fun c w => (c, w))
      (zipWith3 (fun xb h mk => hrm.controller.forward P xb h mk) x2 cs masks) w1).length
      = batch := by
    cases hua : ua with
    | true =>
      rw [if_pos rfl, length_zipWith3, hc1len, hw1len, hmasks]
      simp
    | false =>
      simp only [Bool.false_eq_true, if_false, List.length_zipWith, hc1len, hw1len]
      simp
  refine ⟨hc1len, hw1len, ?_, by simpa using hflen⟩
  simp only [List.length_map, List.length_zipWith, hflen, min_self]

theorem hrmLoop_ok_batch {P : Prims} {hrm : HRM} {ua : Bool} {x2 : Ten3}
    {masks : List (Option Vec)} {batch : ℕ}
    (hx2len : x2.length = batch) (hmasks : masks.length = batch) :
    ∀ (n : ℕ) (cs ws : Mat) (ch wh : List Mat)
      (out : Mat × Mat × List Mat × List Mat),
      cs.length = batch → ws.length = batch →
      (∀ m ∈ ch, m.length = batch) → (∀ m ∈ wh, m.length = batch) →
      hrmLoop P hrm ua x2 masks n cs ws ch wh = .ok out →
      out.1.length = batch ∧ out.2.1.length = batch ∧
      (∀ m ∈ out.2.2.1, m.length = batch) ∧ (∀ m ∈ out.2.2.2, m.length = batch) := by
  intro n
  induction n with
  | zero =>
    intro cs ws ch wh out hcs hws hch hwh hloop
    simp only [hrmLoop, Except.ok.injEq] at hloop
    subst hloop
    exact ⟨hcs, hws, hch, hwh⟩
  | succ n ih =>
    intro cs ws ch wh out hcs hws hch hwh hloop
    simp only [hrmLoop, exceptBind_ok] at hloop
    rcases hloop with ⟨q, hq, hrest⟩
    have hqs := hrmCycle_ok_batch hx2len hmasks hcs hws hq
    refine ih q.newC q.newW (ch ++ [q.recC]) (wh ++ [q.recW]) out
      hqs.2.2.1 hqs.2.2.2 ?_ ?_ hrest
    · intro m hm
      rcases List.mem_append.mp hm with hm | hm
      · exact hch m hm
      · simp only [List.mem_singleton] at hm
        exact hm ▸ hqs.1
    · intro m hm
      rcases List.mem_append.mp hm with hm | hm
      · exact hwh m hm
      · simp only [List.mem_singleton] at hm
        exact hm ▸ hqs.2.1

theorem hrmLoop_ok_history (P : Prims) (hrm : HRM) (ua : Bool) (x2 : Ten3)
    (masks : List (Option Vec)) :
    ∀ (n : ℕ) (cs ws : Mat) (ch wh : List Mat)
      (out : Mat × Mat × List Mat × List Mat),
      hrmLoop P hrm ua x2 masks n cs ws ch wh = .ok out →
      hrmStates P hrm ua x2 masks n (cs, ws) = .ok (out.1, out.2.1) ∧
      out.2.2.1.length = ch.length + n ∧ out.2.2.2.length = wh.length + n ∧
      (∀ i, i < ch.length → out.2.2.1.getD i [] = ch.getD i []) ∧
      (∀ i, i < wh.length → out.2.2.2.getD i [] = wh.getD i []) ∧
      ∀ k, k < n →
        ∃ s q, hrmStates P hrm ua x2 masks k (cs, ws) = .ok s ∧
          hrmCycle P hrm ua x2 masks s.1 s.2 = .ok q ∧
          out.2.2.1.getD (ch.length + k) [] = q.recC ∧
          out.2.2.2.getD (wh.length + k) [] = q.recW := by
  intro n
  induction n with
  | zero =>
    intro cs ws ch wh out hloop
    simp only [hrmLoop, Except.ok.injEq] at hloop
    subst hloop
    refine ⟨rfl, by simp, by simp, fun i _ => rfl, fun i _ => rfl, ?_⟩
    intro k hk
    exact absurd hk (Nat.not_lt_zero k)
  | succ n ih =>
    intro cs ws ch wh out hloop
    simp only [hrmLoop, exceptBind_ok] at hloop
    rcases hloop with ⟨q, hq, hrest⟩
    have H := ih q.newC q.newW (ch ++ [q.recC]) (wh ++ [q.recW]) out hrest
    refine ⟨?_, ?_, ?_, ?_, ?_, ?_⟩
    · simp only [hrmStates, exceptBind_ok]
      exact ⟨q, hq, H.1⟩
    · rw [H.2.1]
      simp
      omega
    · rw [H.2.2.1]
      simp
      omega
    · intro i hi
      rw [H.2.2.2.1 i (by simp; omega)]
      exact getD_append_left ch [q.recC] i [] hi
    · intro i hi
      rw [H.2.2.2.2.1 i (by simp; omega)]
      exact getD_append_left wh [q.recW] i [] hi
    · intro k hk
      cases k with
      | zero =>
        refine ⟨(cs, ws), q, rfl, hq, ?_, ?_⟩
        · rw [Nat.add_zero, H.2.2.2.1 ch.length (by simp)]
          exact getD_append_at ch [] q.recC []
        · rw [Nat.add_zero, H.2.2.2.2.1 wh.length (by simp)]
          exact getD_append_at wh [] q.recW []
      | succ k' =>
        rcases H.2.2.2.2.2 k' (by omega) with ⟨s, q', hs, hq', hcv, hwv⟩
        refine ⟨s, q', ?_, hq', ?_, ?_⟩
        · simp only [hrmStates, exceptBind_ok]
          exact ⟨q, hq, hs⟩
        · rw [← hcv]
          congr 1
          simp
          omega
        · rw [← hwv]
          congr 1
          simp
          omega

theorem stackDim1_ok_shape {l : List Mat} {t : Ten3} {batch dim : ℕ}
    (hl : ∀ m ∈ l, MatShape m batch dim) (hok : stackDim1 l = .ok t) :
    t.length = batch ∧ ∀ mb ∈ t, mb.length = l.length ∧ ∀ row ∈ mb, row.length = dim := by
  cases l with
  | nil => cases hok
  | cons s rest =>
    simp only [stackDim1, Except.ok.injEq] at hok
    subst hok
    have hs : s.length = batch := (hl s (by simp)).1
    constructor
    · simp [hs]
    · intro mb hmb
      rcases List.mem_map.mp hmb with ⟨b, hb, rfl⟩
      rw [List.mem_range, hs] at hb
      refine ⟨by simp, ?_⟩
      intro row hrow
      rcases List.mem_map.mp hrow with ⟨m, hm, rfl⟩
      have hmshape := hl m hm
      exact hmshape.2 _ (getD_mem m b [] (by rw [hmshape.1]; exact hb))

theorem stackDim1_ok_getD {l : List Mat} {t : Ten3} {batch : ℕ}
    (hbatch : ∀ m ∈ l, m.length = batch) (hok : stackDim1 l = .ok t)
    (b : ℕ) (hb : b < batch) (k : ℕ) :
    (t.getD b []).getD k [] = (l.getD k []).getD b [] := by
  cases l with
  | nil => cases hok
  | cons s rest =>
    simp only [stackDim1, Except.ok.injEq] at hok
    subst hok
    have hs : s.length = batch := hbatch s (by simp)
    rw [hs, getD_map_range _ batch b hb, getD_map_getD]

theorem hrm_forward_ok_decomp {P : Prims} {cfg : HRMConfig} {hrm : HRM} {x : Ten3}
    {mask : Option Mat} {ra : Bool} {r : HRMOutput}
    (hok : HRM.forward P cfg hrm x mask ra = .ok r) :
    ∃ x2 out cst wst,
      hrmPrepare P cfg hrm x = .ok x2 ∧
      hrmLoop P hrm cfg.use_attention x2 (batchMasks mask x.length) cfg.num_cycles
        (List.replicate x.length (List.replicate cfg.controller_dim (0 : ℚ)))
        (List.replicate x.length (List.replicate cfg.worker_dim (0 : ℚ))) [] [] = .ok out ∧
      stackDim1 out.2.2.1 = .ok cst ∧ stackDim1 out.2.2.2 = .ok wst ∧
      r = ⟨out.1.map hrm.output_projection.apply, cst, wst, out.1, out.2.1⟩ := by
  simp only [HRM.forward, exceptBind_ok] at hok
  rcases hok with ⟨x2, hx2, out, hout, cst, hcst, wst, hwst, hfin⟩
  refine ⟨x2, out, cst, wst, hx2, hout, hcst, hwst, ?_⟩
  cases hc : (ra && cfg.use_attention) with
  | true =>
    rw [hc] at hfin
    simp at hfin
  | false =>
    rw [hc] at hfin
    simp only [Bool.false_eq_true, if_false, Except.ok.injEq] at hfin
    exact hfin.symm

/-- C2: For every forward call that returns, the reasoning-cycle loop has run
exactly `num_cycles` iterations — the loop in `hrmLoop` is structurally a
fixed-count recursion with no early exit or convergence check — and the
returned controller-state and worker-state histories contain exactly
`num_cycles` entries each, stacked to shapes (batch, numCycles,
controller_dim) and (batch, numCycles, worker_dim), for every input tensor
and mask. -/
theorem hrm_forward_history_shapes
    (P : Prims) (cfg : HRMConfig) (hrm : HRM) (x : Ten3) (mask : Option Mat)
    (ra : Bool) (r : HRMOutput)
    (hwf : hrm.wf cfg) (hseq : ∀ xb ∈ x, xb ≠ ([] : Mat))
    (hok : HRM.forward P cfg hrm x mask ra = .ok r) :
    r.controller_states.length = x.length ∧
    (∀ mb ∈ r.controller_states, mb.length = cfg.num_cycles ∧
      ∀ row ∈ mb, row.length = cfg.controller_dim) ∧
    r.worker_states.length = x.length ∧
    (∀ mb ∈ r.worker_states, mb.length = cfg.num_cycles ∧
      ∀ row ∈ mb, row.length = cfg.worker_dim) := by
  rcases hrm_forward_ok_decomp hok with ⟨x2, out, cst, wst, hx2, hloop, hcst, hwst, hr⟩
  have hprep := hrmPrepare_ok_shape hwf.1 hseq hx2
  have hcs0 : MatShape (List.replicate x.length
      (List.replicate cfg.controller_dim (0 : ℚ))) x.length cfg.controller_dim := by
    constructor
    · simp
    · intro row hrow
      rw [List.eq_of_mem_replicate hrow]
      simp
  have hws0 : MatShape (List.replicate x.length
      (List.replicate cfg.worker_dim (0 : ℚ))) x.length cfg.worker_dim := by
    constructor
    · simp
    · intro row hrow
      rw [List.eq_of_mem_replicate hrow]
      simp
  have hL := hrmLoop_ok_shape hwf P cfg.use_attention hprep.1 hprep.2
    (length_batchMasks mask x.length) cfg.num_cycles _ _ [] [] out
    hcs0 hws0 (by simp) (by simp) hloop
  have hchlen : out.2.2.1.length = cfg.num_cycles := by
    rw [hL.2.2.1]
    simp
  have hwhlen : out.2.2.2.length = cfg.num_cycles := by
    rw [hL.2.2.2.2.1]
    simp
  have hstC := stackDim1_ok_shape hL.2.2.2.1 hcst
  have hstW := stackDim1_ok_shape hL.2.2.2.2.2 hwst
  subst hr
  refine ⟨hstC.1, ?_, hstW.1, ?_⟩
  · intro mb hmb
    exact ⟨by rw [(hstC.2 mb hmb).1, hchlen], (hstC.2 mb hmb).2⟩
  · intro mb hmb
    exact ⟨by rw [(hstW.2 mb hmb).1, hwhlen], (hstW.2 mb hmb).2⟩

theorem controllerLoop_hidden (P : Prims) (mask : Option Vec) :
    ∀ (ls : List ControllerLayer) (x : Mat) (h : Vec),
      (controllerLoop P mask ls x h).2 =
        ((controllerTrajectory P mask ls x).map matMean).foldl vadd h := by
  intro ls
  induction ls with
  | nil => intro x h; rfl
  | cons L rest ih =>
    intro x h
    simp only [controllerLoop, controllerTrajectory, List.map_cons, List.foldl_cons]
    exact ih _ _

/-- C7: In every `Controller.forward`, the hidden state accumulates, after
each of the layers, the mean over sequence positions of that layer's output
(`hidden += mean_t(x_t)`, stated for every prefix of the layer stack via
`List.take`), and the returned hidden state equals the accumulated hidden
state plus the planning network applied to it. -/
theorem controller_hidden_accumulation
    (P : Prims) (c : Controller) (x : Mat) (hidden : Vec) (mask : Option Vec) :
    Controller.forward P c x hidden mask =
      vadd
        (((controllerTrajectory P mask c.layers
            (x.map (fun r => vadd r (c.goal.forward P hidden)))).map matMean).foldl
          vadd hidden)
        (c.planning.forward P
          (((controllerTrajectory P mask c.layers
              (x.map (fun r => vadd r (c.goal.forward P hidden)))).map matMean).foldl
            vadd hidden)) ∧
    ∀ j : ℕ,
      (controllerLoop P mask (c.layers.take j)
          (x.map (fun r => vadd r (c.goal.forward P hidden))) hidden).2 =
        ((controllerTrajectory P mask (c.layers.take j)
            (x.map (fun r => vadd r (c.goal.forward P hidden)))).map matMean).foldl
          vadd hidden := by
  constructor
  · simp only [Controller.forward, controllerLoop_hidden]
  · intro j
    exact controllerLoop_hidden P mask _ _ _

theorem length_maskFillRow_some (m row : Vec) :
    (maskFillRow (some m) row).length = min row.length m.length := by
  simp [maskFillRow]

theorem attendCore_weights_shape (P : Prims) (hP : ∀ t, 0 < P.exp t)
    (nh hd : ℕ) (Q K V : Mat) (mask : Option Vec) {seqK : ℕ}
    (hK : K.length = seqK) (hmk : ∀ m, mask = some m → m.length = seqK)
    (hseqK : 0 < seqK) :
    (attendCore P nh hd Q K V mask).2.length = nh ∧
    ∀ wh ∈ (attendCore P nh hd Q K V mask).2, wh.length = Q.length ∧
      ∀ row ∈ wh, row.length = seqK ∧ row.sum = 1 := by
  constructor
  · simp [attendCore]
  · intro wh hwh
    simp only [attendCore, List.map_map] at hwh
    rcases List.mem_map.mp hwh with ⟨h, _, rfl⟩
    constructor
    · simp [headWeights, headScores]
    · intro row hrow
      simp only [Function.comp_apply, headWeights] at hrow
      rcases List.mem_map.mp hrow with ⟨srow, hsrow, rfl⟩
      have hsrowlen : srow.length = seqK := by
        simp only [headScores] at hsrow
        rcases List.mem_map.mp hsrow with ⟨qq, _, rfl⟩
        simp [hK]
      have hmlen : (maskFillRow mask srow).length = seqK := by
        cases hmask : mask with
        | none => simpa [maskFillRow] using hsrowlen
        | some m =>
          rw [length_maskFillRow_some, hsrowlen, hmk m hmask, min_self]
      have hmne : maskFillRow mask srow ≠ [] := by
        intro hcon
        rw [hcon] at hmlen
        simp at hmlen
        omega
      refine ⟨by rw [length_softmaxV, hmlen], softmaxV_sum P hP _ hmne⟩

/-- C3: For every attention call of either variant (with dropout modelled as
disabled), the returned attention-weight tensor has shape
(batch, num_heads, seqQ, seqK) and every row along the key axis sums to
exactly 1, including when a mask is supplied. -/
theorem attention_row_sums
    (P : Prims) (hP : ∀ t, 0 < P.exp t)
    (cma : CrossModuleAttention) (mha : MultiHeadAttention)
    (query key value : Ten3) (mask : Option Mat) (seqQ seqK : ℕ)
    (hq : ∀ qb ∈ query, qb.length = seqQ)
    (hk : ∀ kb ∈ key, kb.length = seqK)
    (hkb : key.length = query.length) (hvb : value.length = query.length)
    (hm : ∀ M, mask = some M → M.length = query.length ∧ ∀ mr ∈ M, mr.length = seqK)
    (hseqK : 0 < seqK) :
    ((cma.forwardB P query key value mask).2.length = query.length ∧
     ∀ wb ∈ (cma.forwardB P query key value mask).2,
       wb.length = cma.num_heads ∧ ∀ wh ∈ wb, wh.length = seqQ ∧
         ∀ row ∈ wh, row.length = seqK ∧ row.sum = 1) ∧
    ((mha.forwardB P query key value mask).2.length = query.length ∧
     ∀ wb ∈ (mha.forwardB P query key value mask).2,
       wb.length = mha.num_heads ∧ ∀ wh ∈ wb, wh.length = seqQ ∧
         ∀ row ∈ wh, row.length = seqK ∧ row.sum = 1) := by
  have hmaskelem : ∀ mk ∈ batchMasks mask query.length,
      ∀ m', mk = some m' → m'.length = seqK := by
    intro mk hmk m' hm'
    simp only [batchMasks] at hmk
    rcases List.mem_map.mp hmk with ⟨b, hb, rfl⟩
    rw [List.mem_range] at hb
    cases hmask : mask with
    | none => rw [hmask] at hm'; cases hm'
    | some M =>
      rw [hmask] at hm'
      simp only [Option.map, Option.some.injEq] at hm'
      subst hm'
      have hM := hm M hmask
      exact hM.2 _ (getD_mem M b [] (by rw [hM.1]; exact hb))
  constructor
  · constructor
    · simp only [CrossModuleAttention.forwardB, List.length_map, length_zipWith4,
        length_batchMasks, hkb, hvb, min_self]
    · intro wb hwb
      simp only [CrossModuleAttention.forwardB, List.map_map] at hwb
      rcases List.mem_map.mp hwb with ⟨args, hargs, rfl⟩
      rcases mem_zipWith4 hargs with ⟨qb, hqb, kb, hkbm, vb, _, mk, hmkm, rfl⟩
      simp only [Function.comp_apply, CrossModuleAttention.forward]
      have hKlen : (kb.map cma.key_proj.apply).length = seqK := by
        simp [hk kb hkbm]
      have := attendCore_weights_shape P hP cma.num_heads cma.head_dim
        (qb.map cma.query_proj.apply) (kb.map cma.key_proj.apply)
        (vb.map cma.value_proj.apply) mk hKlen (hmaskelem mk hmkm) hseqK
      refine ⟨this.1, ?_⟩
      intro wh hwh
      have hthis := this.2 wh hwh
      refine ⟨by rw [hthis.1]; simp [hq qb hqb], hthis.2⟩
  · constructor
    · simp only [MultiHeadAttention.forwardB, List.length_map, length_zipWith4,
        length_batchMasks, hkb, hvb, min_self]
    · intro wb hwb
      simp only [MultiHeadAttention.forwardB, List.map_map] at hwb
      rcases List.mem_map.mp hwb with ⟨args, hargs, rfl⟩
      rcases mem_zipWith4 hargs with ⟨qb, hqb, kb, hkbm, vb, _, mk, hmkm, rfl⟩
      simp only [Function.comp_apply, MultiHeadAttention.forward]
      have hKlen : (kb.map mha.key_proj.apply).length = seqK := by
        simp [hk kb hkbm]
      have := attendCore_weights_shape P hP mha.num_heads mha.head_dim
        (qb.map mha.query_proj.apply) (kb.map mha.key_proj.apply)
        (vb.map mha.value_proj.apply) mk hKlen (hmaskelem mk hmkm) hseqK
      refine ⟨this.1, ?_⟩
      intro wh hwh
      have hthis := this.2 wh hwh
      refine ⟨by rw [hthis.1]; simp [hq qb hqb], hthis.2⟩

/-- Witness for C3 at a concrete batch-1, seq-1, dim-1 instance. -/
theorem attention_row_sums_witness :
    (∀ t : ℚ, 0 < P0.exp t) ∧
    (cma1.forwardB P0 [[[0]]] [[[0]]] [[[0]]] none).2.length = 1 :=
  ⟨fun t => by norm_num [P0],
   (attention_row_sums P0 (fun t => by norm_num [P0]) cma1 mha1
     [[[0]]] [[[0]]] [[[0]]] none 1 1 (by simp) (by simp) rfl rfl
     (by intro M hM; cases hM) (by norm_num)).1.1⟩

/-- C9: A head count that does not divide the dimension makes the
same-dimension attention constructors fail with the configuration assert
"dim must be divisible by num_heads", and a non-positive computed
cross-dimension head dimension makes the `CrossModuleAttention` constructor
fail with "Head dimension must be positive" — in each case at construction,
before any forward computation exists. -/
theorem attention_construction_asserts
    (dim num_heads qd kd vd od : ℕ) (use_gated : Bool) (q k v o g : Linear) :
    (¬ dim % num_heads = 0 →
      MultiHeadAttention.construct dim num_heads q k v o =
        .error "dim must be divisible by num_heads" ∧
      GatedMultiHeadAttention.construct dim num_heads use_gated q k v o g =
        .error "dim must be divisible by num_heads") ∧
    (min qd (min kd vd) / num_heads = 0 →
      CrossModuleAttention.construct qd kd vd od num_heads q k v o =
        .error "Head dimension must be positive") := by
  constructor
  · intro hndvd
    constructor
    · rw [MultiHeadAttention.construct, if_neg hndvd]
    · rw [GatedMultiHeadAttention.construct, if_neg hndvd]
  · intro hzero
    rw [CrossModuleAttention.construct, if_neg]
    omega

/-- Witness for C9 at the spec's example `dim = 10`, `heads = 4`, and a
cross-dimension example with head dimension `min(4, 4, 4) // 8 = 0`. -/
theorem attention_construction_asserts_witness :
    (¬ (10 : ℕ) % 4 = 0 ∧
      MultiHeadAttention.construct 10 4 (zeroLinear 10 10) (zeroLinear 10 10)
        (zeroLinear 10 10) (zeroLinear 10 10) =
        .error "dim must be divisible by num_heads") ∧
    ((4 : ℕ) / 8 = 0 ∧
      CrossModuleAttention.construct 4 4 4 4 8 (zeroLinear 4 4) (zeroLinear 4 4)
        (zeroLinear 4 4) (zeroLinear 4 4) =
        .error "Head dimension must be positive") :=
  ⟨⟨by decide,
    ((attention_construction_asserts 10 4 4 4 4 4 true (zeroLinear 10 10)
      (zeroLinear 10 10) (zeroLinear 10 10) (zeroLinear 10 10)
      (zeroLinear 10 10)).1 (by decide)).1⟩,
   ⟨by decide,
    (attention_construction_asserts 10 8 4 4 4 4 true (zeroLinear 4 4)
      (zeroLinear 4 4) (zeroLinear 4 4) (zeroLinear 4 4) (zeroLinear 4 4)).2
      (by decide)⟩⟩

/-! Wellformedness of the concrete instances, and error-propagation lemmas
for the worker convolution crash. -/

theorem zeroLinear_wf (i o : ℕ) : (zeroLinear i o).wf i o := by
  refine ⟨by simp [zeroLinear], by simp [zeroLinear], ?_⟩
  intro w hw
  rw [List.eq_of_mem_replicate hw]
  simp

theorem constLayerNorm_wf (w b : ℚ) (d : ℕ) : (constLayerNorm w b d).wf d := by
  constructor <;> simp [constLayerNorm]

theorem cma8_wf : cma8.wf 8 8 8 8 :=
  ⟨rfl, rfl, rfl, rfl, zeroLinear_wf 8 8, zeroLinear_wf 8 8, zeroLinear_wf 8 8,
   zeroLinear_wf 8 8⟩

theorem hrm8_wf_cfg8 : hrm8.wf cfg8 := by
  refine ⟨zeroLinear_wf 1 8, ⟨?_, ?_, ?_⟩, ⟨?_, ?_, ?_, ?_⟩, ?_, zeroLinear_wf 8 8,
    zeroLinear_wf 8 8, zeroLinear_wf 8 1, constLayerNorm_wf 1 0 8⟩
  · intro L hL
    simp only [hrm8, ctrl8, List.mem_singleton] at hL
    subst hL
    exact ⟨⟨zeroLinear_wf 8 8, zeroLinear_wf 8 8, zeroLinear_wf 8 8,
        zeroLinear_wf 8 8, zeroLinear_wf 8 8⟩,
      ⟨zeroLinear_wf 8 16, zeroLinear_wf 8 16, zeroLinear_wf 16 8⟩,
      constLayerNorm_wf 1 0 8, constLayerNorm_wf 1 0 8⟩
  · exact ⟨zeroLinear_wf 8 16, zeroLinear_wf 16 8, zeroLinear_wf 8 8,
      constLayerNorm_wf 1 0 8⟩
  · exact ⟨zeroLinear_wf 8 8, zeroLinear_wf 8 8⟩
  · exact zeroLinear_wf 8 8
  · intro l hl
    simp only [hrm8, worker8, List.mem_singleton] at hl
    subst hl
    refine ⟨⟨rfl, zeroLinear_wf 8 8, by simp [wl8, cfg8], by simp [wl8, cfg8],
      ⟨zeroLinear_wf 8 8, zeroLinear_wf 8 8, zeroLinear_wf 8 8, zeroLinear_wf 8 8,
       zeroLinear_wf 8 8, zeroLinear_wf 8 8⟩, zeroLinear_wf 16 8⟩,
      constLayerNorm_wf 1 0 8⟩
  · exact ⟨zeroLinear_wf 8 16, zeroLinear_wf 16 8, zeroLinear_wf 8 8,
      constLayerNorm_wf 1 0 8⟩
  · exact ⟨zeroLinear_wf 8 8, zeroLinear_wf 8 8, constLayerNorm_wf 1 0 8⟩
  · exact ⟨cma8_wf, cma8_wf, cma8_wf, zeroLinear_wf 16 8, zeroLinear_wf 16 8,
      constLayerNorm_wf 1 0 8, constLayerNorm_wf 1 0 8⟩

theorem hrm8_wf_cfg8a : hrm8.wf cfg8a := hrm8_wf_cfg8

theorem error_bind (e : String) (f : α → Except String β) :
    ((Except.error e : Except String α) >>= f) = .error e := rfl

theorem ok_bind (a : α) (f : α → Except String β) :
    ((Except.ok a : Except String α) >>= f) = f a := rfl

theorem conv1d_channel_error {inCh : ℕ} (w : List Mat) (b : Vec) (x : Vec)
    (h : inCh ≠ 1) :
    conv1d inCh w b [x] = .error "conv1d expected in_channels input channels" := by
  rw [conv1d, if_neg]
  simpa using fun hcon => h hcon.symm

theorem convBranch_channel_error {wl : WorkerLayer} (huc : wl.use_conv = true)
    (hdim : wl.dim ≠ 1) (x : Vec) :
    wl.convBranch x = .error "conv1d expected in_channels input channels" := by
  rw [WorkerLayer.convBranch, huc, if_pos rfl,
    conv1d_channel_error wl.conv_weight wl.conv_bias x hdim]
  rfl

theorem workerLayer_conv_error {wl : WorkerLayer} (huc : wl.use_conv = true)
    (hdim : wl.dim ≠ 1) (P : Prims) (x h : Vec) :
    wl.forward P x h = .error "conv1d expected in_channels input channels" := by
  simp only [WorkerLayer.forward, convBranch_channel_error huc hdim, error_bind]

theorem worker_conv_error {w : Worker} {wl : WorkerLayer} {ln : LayerNorm}
    {rest : List (WorkerLayer × LayerNorm)} (hlay : w.layers = (wl, ln) :: rest)
    (huc : wl.use_conv = true) (hdim : wl.dim ≠ 1) (P : Prims) (x h : Vec) :
    w.forward P x h = .error "conv1d expected in_channels input channels" := by
  simp only [Worker.forward, hlay, workerLoop,
    workerLayer_conv_error huc hdim, error_bind]

theorem hrmCycle_worker_error {P : Prims} {hrm : HRM} {ua : Bool} {x2 : Ten3}
    {masks : List (Option Vec)} {cs ws : Mat} {e : String}
    (hx2 : x2 ≠ []) (hcs : cs ≠ []) (hmasks : masks ≠ []) (hws : ws ≠ [])
    (hwerr : ∀ xi h, hrm.worker.forward P xi h = .error e) :
    hrmCycle P hrm ua x2 masks cs ws = .error e := by
  rcases List.exists_cons_of_ne_nil hx2 with ⟨xb, xt, rfl⟩
  rcases List.exists_cons_of_ne_nil hcs with ⟨c0, ct, rfl⟩
  rcases List.exists_cons_of_ne_nil hmasks with ⟨m0, mt, rfl⟩
  rcases List.exists_cons_of_ne_nil hws with ⟨w0, wt, rfl⟩
  simp only [hrmCycle, zipWith3, List.map_cons, zipWithE, hwerr, error_bind]

theorem hrmLoop_cycle_error {P : Prims} {hrm : HRM} {ua : Bool} {x2 : Ten3}
    {masks : List (Option Vec)} {cs ws : Mat} {e : String}
    (n : ℕ) (ch wh : List Mat) (hcyc : hrmCycle P hrm ua x2 masks cs ws = .error e) :
    hrmLoop P hrm ua x2 masks (n + 1) cs ws ch wh = .error e := by
  simp only [hrmLoop, hcyc, error_bind]

/-- C6 (code bug): on a well-formed worker layer of dimension 2 with the
convolution branch enabled, the forward step does not compute the gated
fusion at all: `x.unsqueeze(-1).transpose(1, 2)` hands the `Conv1d` a
single-channel input although it was constructed with `in_channels = dim`,
so the step raises for every `dim ≠ 1`. -/
theorem workerLayer_conv_channel_mismatch :
    wl2.wf 2 ∧
    wl2.forward P0 [0, 0] [0, 0] =
      .error "conv1d expected in_channels input channels" := by
  constructor
  · refine ⟨rfl, ?_, by simp [wl2], by simp [wl2], ?_, ?_⟩
    · simp [wl2, zeroLinear, Linear.wf, List.mem_replicate]
    · simp [wl2, gru2, GRUCell.wf, zeroLinear, Linear.wf, List.mem_replicate]
    · simp [wl2, zeroLinear, Linear.wf, List.mem_replicate]
  · exact workerLayer_conv_error rfl (by decide) P0 [0, 0] [0, 0]

theorem hrm8_worker_error (xi h : Vec) :
    worker8.forward P0 xi h = .error "conv1d expected in_channels input channels" :=
  worker_conv_error rfl rfl (by decide) P0 xi h

/-- C1 (code bug): on a valid configuration (all construction asserts pass,
here controller_dim = worker_dim = 8 with the hard-coded 8 heads) with
well-formed parameters and a well-shaped (batch 1, seq 1, input_dim) input,
`HRM.forward` does not return a result at all: the first reasoning cycle
crashes inside the worker convolution branch, because worker_dim ≠ 1. -/
theorem hrm_forward_worker_conv_crash :
    cfg8.valid ∧ hrm8.wf cfg8 ∧
    HRM.forward P0 cfg8 hrm8 [[[0]]] none false =
      .error "conv1d expected in_channels input channels" := by
  refine ⟨?_, ?_, ?_⟩
  · constructor
    · intro _
      decide
    · intro hcon
      simp [cfg8] at hcon
  · exact hrm8_wf_cfg8
  · have hcyc : hrmCycle P0 hrm8 cfg8.use_attention
        ([[[0]]].map (fun xb => xb.map hrm8.input_projection.apply))
        (batchMasks none 1)
        (List.replicate 1 (List.replicate cfg8.controller_dim (0 : ℚ)))
        (List.replicate 1 (List.replicate cfg8.worker_dim (0 : ℚ))) =
        .error "conv1d expected in_channels input channels" := by
      refine hrmCycle_worker_error (by simp) (by simp) (by simp [batchMasks]) (by simp) ?_
      intro xi h
      exact hrm8_worker_error xi h
    have hloop := hrmLoop_cycle_error 0 [] [] hcyc
    have hup : cfg8.use_positional_encoding = false := rfl
    have hnc : cfg8.num_cycles = 0 + 1 := rfl
    simp only [HRM.forward, hrmPrepare, hup, Bool.false_eq_true, if_false, ok_bind,
      List.length_singleton, hnc]
    rw [hloop]
    rfl

/-- C5 (code bug): with the attention bridge enabled and the
retain-diagnostics flag set (a valid configuration), `HRM.forward` does not
complete either: the worker convolution crash of C1/C6 aborts the first
cycle; and even independently of it, the diagnostics path calls
`torch.stack` on the list of per-cycle attention-weight DICTIONARIES, which
raises a `TypeError` (modelled as the final error branch of
`HRM.forward`). -/
theorem hrm_forward_return_attention_crash :
    cfg8a.valid ∧ hrm8.wf cfg8a ∧
    HRM.forward P0 cfg8a hrm8 [[[0]]] none true =
      .error "conv1d expected in_channels input channels" := by
  refine ⟨?_, ?_, ?_⟩
  · constructor
    · intro _
      decide
    · intro _
      constructor <;> decide
  · exact hrm8_wf_cfg8a
  · have hcyc : hrmCycle P0 hrm8 cfg8a.use_attention
        ([[[0]]].map (fun xb => xb.map hrm8.input_projection.apply))
        (batchMasks none 1)
        (List.replicate 1 (List.replicate cfg8a.controller_dim (0 : ℚ)))
        (List.replicate 1 (List.replicate cfg8a.worker_dim (0 : ℚ))) =
        .error "conv1d expected in_channels input channels" := by
      refine hrmCycle_worker_error (by simp) (by simp) (by simp [batchMasks]) (by simp) ?_
      intro xi h
      exact hrm8_worker_error xi h
    have hloop := hrmLoop_cycle_error 0 [] [] hcyc
    have hup : cfg8a.use_positional_encoding = false := rfl
    have hnc : cfg8a.num_cycles = 0 + 1 := rfl
    simp only [HRM.forward, hrmPrepare, hup, Bool.false_eq_true, if_false, ok_bind,
      List.length_singleton, hnc]
    rw [hloop]
    rfl

/-- C4 (code bug): the value `PositionalEncoding.forward` adds depends on the
BATCH index, not the sequence position.  On a zero (batch 2, seq 2, d 2)
input with the `max_len = 3` table under `P0` (whose rows are
`[pos, pos + 1]`), the code adds row `b` of the table to every position of
batch element `b` — both positions of batch 0 get `[0, 1]` and both
positions of batch 1 get `[1, 2]` — whereas the spec's per-position reading
(`PositionalEncoding.specIntended`) gives position `t` the row `[t, t + 1]`
in every batch element.  The two results differ. -/
theorem posenc_adds_by_batch_not_position :
    PositionalEncoding.forward peT x4in =
      .ok [[[0, 1], [0, 1]], [[1, 2], [1, 2]]] ∧
    PositionalEncoding.specIntended peT x4in =
      [[[0, 1], [1, 2]], [[0, 1], [1, 2]]] ∧
    PositionalEncoding.forward peT x4in ≠
      .ok (PositionalEncoding.specIntended peT x4in) := by
  have h1 : PositionalEncoding.forward peT x4in =
      .ok [[[0, 1], [0, 1]], [[1, 2], [1, 2]]] := by
    norm_num [PositionalEncoding.forward, peT, peTable, peDivTerm, x4in, P0, vadd,
      List.range_succ]
  have h2 : PositionalEncoding.specIntended peT x4in =
      [[[0, 1], [1, 2]], [[0, 1], [1, 2]]] := by
    norm_num [PositionalEncoding.specIntended, peT, peTable, peDivTerm, x4in, P0,
      vadd, List.range_succ]
  refine ⟨h1, h2, ?_⟩
  rw [h1, h2]
  intro hcon
  simp only [Except.ok.injEq, List.cons.injEq] at hcon
  norm_num at hcon

theorem posenc_ok_length {pe : Mat} {x1 x2 : Ten3}
    (hok : PositionalEncoding.forward pe x1 = .ok x2) : x2.length = x1.length := by
  rw [PositionalEncoding.forward] at hok
  by_cases hc1 : (pe.take x1.length).length = x1.length
  · rw [if_pos hc1] at hok
    simp only [Except.ok.injEq] at hok
    subst hok
    simp [hc1]
  · rw [if_neg hc1] at hok
    by_cases hc2 : (pe.take x1.length).length = 1
    · rw [if_pos hc2] at hok
      simp only [Except.ok.injEq] at hok
      subst hok
      simp
    · rw [if_neg hc2] at hok
      cases hok

theorem hrmPrepare_ok_length {P : Prims} {cfg : HRMConfig} {hrm : HRM} {x x2 : Ten3}
    (hok : hrmPrepare P cfg hrm x = .ok x2) : x2.length = x.length := by
  rw [hrmPrepare] at hok
  cases hup : cfg.use_positional_encoding with
  | true =>
    rw [hup, if_pos rfl] at hok
    rw [posenc_ok_length hok]
    simp
  | false =>
    rw [hup] at hok
    simp only [Bool.false_eq_true, if_false, Except.ok.injEq] at hok
    subst hok
    simp

theorem ctrl1_eval : Controller.forward P0 ctrl1 [[0]] [0] none = [0] := by
  norm_num [Controller.forward, ctrl1, gmha1, ff1, GoalEncoder.forward,
    controllerLoop, controllerLayerStep, GatedMultiHeadAttention.forward,
    GatedMultiHeadAttention.gateVec, GatedMultiHeadAttention.head_dim, attendCore,
    headWeights, headScores, headChunk, headAttend, joinHeads, maskFillRow,
    softmaxV, vsum0, vscale, sigmoid, sigmoidVec, FeedForward.forward,
    FeedForward.combined, FeedForward.gateVec, FeedForward.upVec, LayerNorm.apply,
    lnEps, constLayerNorm, matMean, PlanningNetwork.forward, Linear.apply,
    zeroLinear, dot, vadd, vmul, onesMinus, P0, Function.comp, List.range_succ,
    List.replicate_succ]

theorem worker1_eval : worker1.forward P0 [0] [0] = .ok [0] := by
  norm_num [Worker.forward, worker1, workerLoop, WorkerLayer.forward,
    WorkerLayer.convBranch, WorkerLayer.gruBranch, WorkerLayer.gateVec, conv1d,
    conv1dRow, GRUCell.forward, gru1, wl1, PatternRecognitionNetwork.forward,
    FastResponseNetwork.forward, reluVec, sigmoid, sigmoidVec, LayerNorm.apply,
    lnEps, constLayerNorm, Linear.apply, zeroLinear, dot, vadd, vmul, onesMinus,
    P0, List.range_succ, List.replicate_succ, Except.map, ok_bind]

theorem hrm1_wf : hrm1.wf cfg1 := by
  refine ⟨zeroLinear_wf 1 1, ⟨?_, ?_, ?_⟩, ⟨?_, ?_, ?_, ?_⟩, ?_, zeroLinear_wf 1 1,
    zeroLinear_wf 1 1, zeroLinear_wf 1 1, constLayerNorm_wf 0 1 1⟩
  · intro L hL
    simp only [hrm1, ctrl1, List.mem_singleton] at hL
    subst hL
    exact ⟨⟨zeroLinear_wf 1 1, zeroLinear_wf 1 1, zeroLinear_wf 1 1,
        zeroLinear_wf 1 1, zeroLinear_wf 1 1⟩,
      ⟨zeroLinear_wf 1 2, zeroLinear_wf 1 2, zeroLinear_wf 2 1⟩,
      constLayerNorm_wf 0 0 1, constLayerNorm_wf 0 0 1⟩
  · exact ⟨zeroLinear_wf 1 2, zeroLinear_wf 2 1, zeroLinear_wf 1 1,
      constLayerNorm_wf 0 0 1⟩
  · exact ⟨zeroLinear_wf 1 1, zeroLinear_wf 1 1⟩
  · exact zeroLinear_wf 1 1
  · intro l hl
    simp only [hrm1, worker1, List.mem_singleton] at hl
    subst hl
    refine ⟨⟨rfl, zeroLinear_wf 1 1, by simp [wl1, cfg1], by simp [wl1, cfg1],
      ⟨zeroLinear_wf 1 1, zeroLinear_wf 1 1, zeroLinear_wf 1 1, zeroLinear_wf 1 1,
       zeroLinear_wf 1 1, zeroLinear_wf 1 1⟩, zeroLinear_wf 2 1⟩,
      constLayerNorm_wf 0 0 1⟩
  · exact ⟨zeroLinear_wf 1 2, zeroLinear_wf 2 1, zeroLinear_wf 1 1,
      constLayerNorm_wf 0 0 1⟩
  · exact ⟨zeroLinear_wf 1 1, zeroLinear_wf 1 1, constLayerNorm_wf 0 0 1⟩
  · exact ⟨⟨rfl, rfl, rfl, rfl, zeroLinear_wf 1 1, zeroLinear_wf 1 1,
      zeroLinear_wf 1 1, zeroLinear_wf 1 1⟩,
      ⟨rfl, rfl, rfl, rfl, zeroLinear_wf 1 1, zeroLinear_wf 1 1, zeroLinear_wf 1 1,
       zeroLinear_wf 1 1⟩,
      ⟨rfl, rfl, rfl, rfl, zeroLinear_wf 1 1, zeroLinear_wf 1 1, zeroLinear_wf 1 1,
       zeroLinear_wf 1 1⟩,
      zeroLinear_wf 2 1, zeroLinear_wf 2 1, constLayerNorm_wf 0 0 1,
      constLayerNorm_wf 0 0 1⟩

set_option maxHeartbeats 1000000 in
theorem hrm1_forward_eval :
    HRM.forward P0 cfg1 hrm1 x1in none false = .ok hrmResult1 := by
  have hsqrt : ∀ t : ℚ, P0.sqrt t = 1 := fun _ => rfl
  norm_num [HRM.forward, hrmPrepare, cfg1, hrm1, x1in, hrmResult1, batchMasks,
    hrmLoop, hrmCycle, zipWith3, zipWithE, stackDim1, ok_bind, Except.map,
    ctrl1_eval, worker1_eval, LayerNorm.apply, lnEps, constLayerNorm,
    Linear.apply, zeroLinear, dot, vadd, hsqrt, Function.comp, List.range_succ,
    List.replicate_succ]

/-- C10: the k-th entry of each returned state history is the state produced
by the Controller (resp. Worker) step of cycle k, recorded from the
pre-fusion, pre-feedback, pre-normalization point of the cycle: entry k of
the controller history is exactly the batched `Controller.forward` output on
the state carried into cycle k (`hrmStates ... k`), entry k of the worker
history is exactly the batched `Worker.forward` output on it, and the
returned final states are the post-cycle (fused, fed-back, normalized)
states after all `num_cycles` cycles.  Consequently the final controller
state is in general NOT the last history entry: at the concrete instance
`cfg1`/`hrm1` the last (only) recorded controller state is `[0]` while the
returned final controller state is `[1]`. -/
theorem hrm_history_prefusion
    (P : Prims) (cfg : HRMConfig) (hrm : HRM) (x : Ten3) (mask : Option Mat)
    (ra : Bool) (r : HRMOutput)
    (hok : HRM.forward P cfg hrm x mask ra = .ok r) :
    (∃ x2, hrmPrepare P cfg hrm x = .ok x2 ∧
      (∀ k, k < cfg.num_cycles →
        ∃ s q, hrmStates P hrm cfg.use_attention x2 (batchMasks mask x.length) k
            (List.replicate x.length (List.replicate cfg.controller_dim (0 : ℚ)),
             List.replicate x.length (List.replicate cfg.worker_dim (0 : ℚ))) = .ok s ∧
          hrmCycle P hrm cfg.use_attention x2 (batchMasks mask x.length) s.1 s.2 = .ok q ∧
          q.recC = zipWith3 (fun xb h mk => hrm.controller.forward P xb h mk)
            x2 s.1 (batchMasks mask x.length) ∧
          zipWithE (fun xi h => hrm.worker.forward P xi h)
            (q.recC.map hrm.controller_to_worker.apply) s.2 = .ok q.recW ∧
          ∀ b, b < x.length →
            (r.controller_states.getD b []).getD k [] = q.recC.getD b [] ∧
            (r.worker_states.getD b []).getD k [] = q.recW.getD b []) ∧
      (∃ sF, hrmStates P hrm cfg.use_attention x2 (batchMasks mask x.length)
          cfg.num_cycles
          (List.replicate x.length (List.replicate cfg.controller_dim (0 : ℚ)),
           List.replicate x.length (List.replicate cfg.worker_dim (0 : ℚ))) = .ok sF ∧
        r.final_controller_state = sF.1 ∧ r.final_worker_state = sF.2)) ∧
    (∃ r1, HRM.forward P0 cfg1 hrm1 x1in none false = .ok r1 ∧
      (r1.controller_states.getD 0 []).getD (cfg1.num_cycles - 1) [] ≠
        r1.final_controller_state.getD 0 []) := by
  constructor
  · rcases hrm_forward_ok_decomp hok with ⟨x2, out, cst, wst, hx2, hloop, hcst, hwst, hr⟩
    have hx2len : x2.length = x.length := hrmPrepare_ok_length hx2
    have hhist := hrmLoop_ok_history P hrm cfg.use_attention x2
      (batchMasks mask x.length) cfg.num_cycles _ _ [] [] out hloop
    have hbatch := hrmLoop_ok_batch hx2len (length_batchMasks mask x.length)
      cfg.num_cycles _ _ [] [] out (by simp) (by simp) (by simp) (by simp) hloop
    refine ⟨x2, hx2, ?_, (out.1, out.2.1), hhist.1, by rw [hr], by rw [hr]⟩
    intro k hk
    rcases hhist.2.2.2.2.2 k hk with ⟨s, q, hs, hq, hcv, hwv⟩
    have hqdec := hq
    simp only [hrmCycle, exceptBind_ok] at hqdec
    rcases hqdec with ⟨w1, hw1, hrest⟩
    simp only [Except.ok.injEq] at hrest
    subst hrest
    refine ⟨s, _, hs, hq, rfl, hw1, ?_⟩
    intro b hb
    have hchb : ∀ m ∈ out.2.2.1, m.length = x.length := hbatch.2.2.1
    have hwhb : ∀ m ∈ out.2.2.2, m.length = x.length := hbatch.2.2.2
    subst hr
    simp only [List.length_nil, Nat.zero_add] at hcv hwv
    constructor
    · rw [stackDim1_ok_getD hchb hcst b hb k, hcv]
    · rw [stackDim1_ok_getD hwhb hwst b hb k, hwv]
  · exact ⟨hrmResult1, hrm1_forward_eval, by
      intro hcon
      norm_num [hrmResult1, cfg1] at hcon⟩

/-- C8 (amended): every gate tensor produced during a forward pass — the
attention-bridge controller and worker gates, the worker-layer fusion gate,
the controller gated-attention gate, and the controller feed-forward (GLU)
gate — is elementwise within [0,1].  The bridge, worker-layer and
gated-attention gates are used as convex-combination weights
`gate*A + (1-gate)*B`; the feed-forward gate, however, is a multiplicative
GLU gate, `gate * gelu(up(x))`, with no complementary `(1-gate)` term. -/
theorem gate_bounds_and_usage (P : Prims) (hP : ∀ t, 0 < P.exp t) :
    (∀ (ha : HierarchicalAttention) (cs ws : Vec) (mask : Option Vec),
      (∀ g ∈ ha.controllerGateVec P cs ws mask, 0 ≤ g ∧ g ≤ 1) ∧
      (∀ g ∈ ha.workerGateVec P cs ws mask, 0 ≤ g ∧ g ≤ 1) ∧
      ha.controllerCombined P cs ws mask =
        vadd (vmul (ha.controllerGateVec P cs ws mask) (ha.w2cAttended P cs ws mask))
          (vmul (onesMinus (ha.controllerGateVec P cs ws mask)) cs) ∧
      ha.workerCombined P cs ws mask =
        vadd (vmul (ha.workerGateVec P cs ws mask) (ha.c2wAttended P cs ws mask))
          (vmul (onesMinus (ha.workerGateVec P cs ws mask)) ws)) ∧
    (∀ (wl : WorkerLayer) (conv gru : Vec),
      ∀ g ∈ wl.gateVec P conv gru, 0 ≤ g ∧ g ≤ 1) ∧
    (∀ (wl : WorkerLayer) (x h out h' : Vec),
      wl.forward P x h = .ok (out, h') →
        ∃ conv, wl.convBranch x = .ok conv ∧
          out = vadd (vadd (vmul (wl.gateVec P conv (wl.gruBranch P x h)) conv)
              (vmul (onesMinus (wl.gateVec P conv (wl.gruBranch P x h)))
                (wl.gruBranch P x h)))
            (wl.linear_transform.apply x) ∧
          h' = vadd h out) ∧
    (∀ (m : GatedMultiHeadAttention) (query key value : Mat) (mask : Option Vec),
      (∀ q : Vec, ∀ g ∈ m.gateVec P q, 0 ≤ g ∧ g ≤ 1) ∧
      (m.use_gated = true →
        (m.forward P query key value mask).1 =
          List.zipWith (fun o q =>
              vadd (vmul (m.gateVec P q) o) (vmul (onesMinus (m.gateVec P q)) q))
            ((attendCore P m.num_heads m.head_dim (query.map m.query_proj.apply)
                (key.map m.key_proj.apply) (value.map m.value_proj.apply) mask).1.map
              m.output_proj.apply) query)) ∧
    (∀ (ff : FeedForward) (x : Vec),
      (∀ g ∈ ff.gateVec P x, 0 ≤ g ∧ g ≤ 1) ∧
      ff.combined P x = vmul (ff.gateVec P x) (ff.upVec P x)) := by
  refine ⟨?_, ?_, ?_, ?_, ?_⟩
  · intro ha cs ws mask
    exact ⟨sigmoidVec_mem_bounds P hP _, sigmoidVec_mem_bounds P hP _, rfl, rfl⟩
  · intro wl conv gru
    exact sigmoidVec_mem_bounds P hP _
  · intro wl x h out h' hfwd
    simp only [WorkerLayer.forward, exceptBind_ok, Except.ok.injEq,
      Prod.mk.injEq] at hfwd
    obtain ⟨conv, hconv, hout, hh'⟩ := hfwd
    subst hout
    subst hh'
    exact ⟨conv, hconv, rfl, rfl⟩
  · intro m query key value mask
    refine ⟨fun q => sigmoidVec_mem_bounds P hP _, ?_⟩
    intro hug
    simp only [GatedMultiHeadAttention.forward, hug, if_pos]
  · intro ff x
    exact ⟨sigmoidVec_mem_bounds P hP _, rfl⟩

/-- Counterexample for C8 as stated: the controller feed-forward gate is NOT
used as a convex combination.  At the concrete instance `ffc` on input `[1]`
(under `P1`, whose `gelu` is the identity) the gate is `[1/2, 1/2]`, the
value branch is `[1, 1]`, and the combined tensor is the plain product
`[1/2, 1/2]`; adding the complementary `(1-gate)` share of any tensor of the
feed-forward computation — the input `x`, the up-projection, or the GELU
branch — changes the value. -/
theorem feedforward_gate_not_convex :
    ffc.gateVec P1 [1] = [1/2, 1/2] ∧
    ffc.upVec P1 [1] = [1, 1] ∧
    ffc.combined P1 [1] = [1/2, 1/2] ∧
    ∀ B ∈ ([[(1 : ℚ)], ffc.up_proj.apply [1], ffc.upVec P1 [1]] : List Vec),
      ffc.combined P1 [1] ≠
        vadd (vmul (ffc.gateVec P1 [1]) (ffc.upVec P1 [1]))
          (vmul (onesMinus (ffc.gateVec P1 [1])) B) := by
  have hg : ffc.gateVec P1 [1] = [1/2, 1/2] := by
    norm_num [FeedForward.gateVec, ffc, zeroLinear, Linear.apply, dot, sigmoid,
      sigmoidVec, P1, List.replicate_succ]
  have hu : ffc.upVec P1 [1] = [1, 1] := by
    norm_num [FeedForward.upVec, ffc, Linear.apply, dot, P1]
  have hup : ffc.up_proj.apply [1] = [1, 1] := by
    norm_num [ffc, Linear.apply, dot]
  refine ⟨hg, hu, ?_, ?_⟩
  · simp only [FeedForward.combined, hg, hu]
    norm_num [vmul]
  · intro B hB
    simp only [FeedForward.combined, hg, hu]
    rw [hup, hu] at hB
    simp only [List.mem_cons, List.not_mem_nil, or_false] at hB
    rcases hB with rfl | rfl | rfl <;>
      norm_num [vadd, vmul, onesMinus]

/-- Witness for the amended C8 at concrete gate values: the feed-forward gate
bound at `sigmoid 0`, and the worker-layer convex fusion at the dimension-1
layer `wl1`, whose forward pass genuinely returns. -/
theorem gate_bounds_witness :
    (∀ t : ℚ, 0 < P0.exp t) ∧ (0 ≤ sigmoid P0 0 ∧ sigmoid P0 0 ≤ 1) ∧
    (∃ conv, wl1.convBranch [0] = .ok conv ∧
      [(0 : ℚ)] = vadd (vadd (vmul (wl1.gateVec P0 conv (wl1.gruBranch P0 [0] [0])) conv)
          (vmul (onesMinus (wl1.gateVec P0 conv (wl1.gruBranch P0 [0] [0])))
            (wl1.gruBranch P0 [0] [0])))
        (wl1.linear_transform.apply [0]) ∧
      [(0 : ℚ)] = vadd [0] [0]) :=
  ⟨fun t => by norm_num [P0],
   ((gate_bounds_and_usage P0 (fun t => by norm_num [P0])).2.2.2.2 ff1 [0]).1
     (sigmoid P0 0)
     (by norm_num [FeedForward.gateVec, ff1, zeroLinear, Linear.apply, dot,
       sigmoidVec, List.replicate_succ]),
   (gate_bounds_and_usage P0 (fun t => by norm_num [P0])).2.2.1 wl1 [0] [0] [0] [0]
     (by norm_num [WorkerLayer.forward, WorkerLayer.convBranch,
       WorkerLayer.gruBranch, WorkerLayer.gateVec, conv1d, conv1dRow,
       GRUCell.forward, gru1, wl1, sigmoid, sigmoidVec, Linear.apply, zeroLinear,
       dot, vadd, vmul, onesMinus, P0, List.range_succ, List.replicate_succ,
       Except.map, ok_bind])⟩

/-- Witness for C2: at the concrete dims-1 instance the forward pass
returns, its hypotheses hold, and the stacked controller history has batch
dimension 1. -/
theorem hrm_forward_history_shapes_witness :
    (hrm1.wf cfg1 ∧ (∀ xb ∈ x1in, xb ≠ ([] : Mat)) ∧
      HRM.forward P0 cfg1 hrm1 x1in none false = .ok hrmResult1) ∧
    hrmResult1.controller_states.length = x1in.length :=
  ⟨⟨hrm1_wf, by simp [x1in], hrm1_forward_eval⟩,
   (hrm_forward_history_shapes P0 cfg1 hrm1 x1in none false hrmResult1 hrm1_wf
     (by simp [x1in]) hrm1_forward_eval).1⟩

/-- Witness for C10: at the concrete dims-1 instance the forward pass
returns, and the recorded history entry differs from the final controller
state. -/
theorem hrm_history_prefusion_witness :
    (HRM.forward P0 cfg1 hrm1 x1in none false = .ok hrmResult1) ∧
    (∃ r1, HRM.forward P0 cfg1 hrm1 x1in none false = .ok r1 ∧
      (r1.controller_states.getD 0 []).getD (cfg1.num_cycles - 1) [] ≠
        r1.final_controller_state.getD 0 []) :=
  ⟨hrm1_forward_eval,
   (hrm_history_prefusion P0 cfg1 hrm1 x1in none false hrmResult1
     hrm1_forward_eval).2⟩

end Upside
